import Mathlib

/-!
# Verification of the codecrafters-git clone pipeline

A shallow embedding of the JavaScript sources of the repository
(`app/utils/objectUtils.js`, `app/utils/repositoryUtils.js`,
`app/commands/clone.js`, `app/commands/writeTree.js` and the unnamed parts),
together with theorems settling the frozen claims about the object store,
the pkt-line codec, the delta reconstructor, the packfile decoder and the
clone orchestrator.

Modelling conventions, used throughout:
* Node `Buffer`s are `List Nat` of byte values (each `< 256` in every run of
  the real program; sites where the JS semantics would differ on non-byte
  values carry a comment).
* JS strings holding ASCII data are either kept as `String` or viewed as
  their byte lists via `strBytes` / `bytesStr`.
* JS `x |= y << k` on disjoint bit ranges is written as addition of shifted
  values, and `x & 0x7f` as `x % 128`, `x & 0x80` as `Nat.testBit x 7`;
  these coincide exactly with the JS bitwise forms on the values arising in
  the program (byte values and sizes below `2^31`, the range where JS
  32-bit bitwise coercion is the identity).
* `zlib` deflate/inflate is an external inverse pair; the object store maps
  an identity to the *inflated* framed bytes, and pack-body inflation is an
  oracle parameter reporting the decompressed data and the count of
  compressed bytes consumed, exactly the interface `zlib.createInflate`
  provides to the source.
* SHA-1 (`crypto.createHash('sha1')`) is implemented concretely per
  FIPS 180 and validated on the repository's known test vector.
-/

set_option maxHeartbeats 1000000
set_option maxRecDepth 4000

/-- ASCII bytes of a string; `Buffer.from(s)` on the ASCII strings the
repository handles yields exactly the code points. -/
def strBytes (s : String) : List Nat := s.toList.map Char.toNat

/-- String from ASCII byte values; `buffer.toString('utf-8')` on ASCII bytes. -/
def bytesStr (l : List Nat) : String := String.mk (l.map Char.ofNat)

/-- Digits of `n` in base `b`, most significant first, with explicit fuel so
that the definition is structurally recursive (and hence evaluates inside
the kernel); `n` itself always is sufficient fuel. -/
def natDigitsFuel (b : Nat) : Nat → Nat → List Nat
  | 0, n => [n]
  | fuel + 1, n =>
    if b < 2 then [n]
    else if n < b then [n]
    else natDigitsFuel b fuel (n / b) ++ [n % b]

/-- Digits of `n` in base `b`, most significant first, as JS
`n.toString(b)` produces them (a single digit for `n = 0`). -/
def natDigits (b n : Nat) : List Nat := natDigitsFuel b n n

/-- Value of a most-significant-first digit list. -/
def digitsVal (b : Nat) (ds : List Nat) : Nat := ds.foldl (fun a d => a * b + d) 0

theorem digitsVal_foldl (b : Nat) (ds : List Nat) (a : Nat) :
    ds.foldl (fun a d => a * b + d) a = a * b ^ ds.length + digitsVal b ds := by
  induction ds generalizing a with
  | nil => simp [digitsVal]
  | cons d ds ih =>
    have hd : digitsVal b (d :: ds) = d * b ^ ds.length + digitsVal b ds := by
      show ds.foldl (fun a d => a * b + d) (0 * b + d) = _
      rw [ih (0 * b + d)]; ring_nf
    simp only [List.foldl_cons, List.length_cons, ih (a * b + d), hd]
    ring

theorem digitsVal_append_singleton (b : Nat) (l : List Nat) (d : Nat) :
    digitsVal b (l ++ [d]) = digitsVal b l * b + d := by
  simp [digitsVal, List.foldl_append]

theorem digitsVal_natDigitsFuel (b : Nat) (hb : 2 ≤ b) :
    ∀ fuel n, n ≤ fuel → digitsVal b (natDigitsFuel b fuel n) = n := by
  intro fuel
  induction fuel with
  | zero =>
    intro n hn
    have : n = 0 := by omega
    subst this
    simp [natDigitsFuel, digitsVal]
  | succ fuel ih =>
    intro n hn
    unfold natDigitsFuel
    rw [if_neg (by omega)]
    by_cases h : n < b
    · simp [h, digitsVal]
    · rw [if_neg h]
      have hdiv : n / b < n := Nat.div_lt_self (by omega) (by omega)
      rw [digitsVal_append_singleton, ih (n / b) (by omega)]
      exact Nat.div_add_mod' n b

theorem digitsVal_natDigits (b n : Nat) (hb : 2 ≤ b) :
    digitsVal b (natDigits b n) = n :=
  digitsVal_natDigitsFuel b hb n n (Nat.le_refl n)

theorem natDigitsFuel_lt (b : Nat) (hb : 2 ≤ b) :
    ∀ fuel n, n ≤ fuel → ∀ d ∈ natDigitsFuel b fuel n, d < b := by
  intro fuel
  induction fuel with
  | zero =>
    intro n hn
    have : n = 0 := by omega
    subst this
    simp [natDigitsFuel]
    omega
  | succ fuel ih =>
    intro n hn
    unfold natDigitsFuel
    rw [if_neg (by omega)]
    by_cases h : n < b
    · simp [h]
    · rw [if_neg h]
      intro d hd
      rcases List.mem_append.mp hd with h1 | h1
      · exact ih (n / b) (by
          have : n / b < n := Nat.div_lt_self (by omega) (by omega)
          omega) d h1
      · simp only [List.mem_singleton] at h1
        subst h1
        exact Nat.mod_lt _ (by omega)

theorem natDigits_lt (b n : Nat) (hb : 2 ≤ b) : ∀ d ∈ natDigits b n, d < b :=
  natDigitsFuel_lt b hb n n (Nat.le_refl n)

theorem natDigits_ne_nil (b n : Nat) : natDigits b n ≠ [] := by
  rw [natDigits]
  cases n with
  | zero => simp [natDigitsFuel]
  | succ m =>
    unfold natDigitsFuel
    by_cases hb : b < 2
    · simp [hb]
    · rw [if_neg hb]
      by_cases h : m + 1 < b
      · simp [h]
      · rw [if_neg h]; simp

theorem natDigitsFuel_length_le (b : Nat) (hb : 2 ≤ b) :
    ∀ fuel k n, n ≤ fuel → 1 ≤ k → n < b ^ k → (natDigitsFuel b fuel n).length ≤ k := by
  intro fuel
  induction fuel with
  | zero =>
    intro k n hn hk _
    have : n = 0 := by omega
    subst this
    simp [natDigitsFuel]
    omega
  | succ fuel ih =>
    intro k n hn hk hnk
    unfold natDigitsFuel
    rw [if_neg (by omega)]
    by_cases h : n < b
    · rw [if_pos h]
      simp only [List.length_cons, List.length_nil]
      omega
    · rw [if_neg h]
      rcases k with _ | k'
      · omega
      · have hk1 : 1 ≤ k' := by
          rcases Nat.eq_zero_or_pos k' with hk0 | hk0
          · subst hk0
            exact absurd (by simpa using hnk) h
          · exact hk0
        have hdivle : n / b ≤ fuel := by
          have : n / b < n := Nat.div_lt_self (by omega) (by omega)
          omega
        have hdivlt : n / b < b ^ k' := by
          rw [Nat.div_lt_iff_lt_mul (by omega : 0 < b)]
          calc n < b ^ (k' + 1) := hnk
            _ = b ^ k' * b := by ring
        have := ih k' (n / b) hdivle hk1 hdivlt
        simp only [List.length_append, List.length_cons, List.length_nil]
        omega

theorem natDigits_length_le (b k : Nat) (hb : 2 ≤ b) (hk : 1 ≤ k) :
    ∀ n, n < b ^ k → (natDigits b n).length ≤ k := fun n hn =>
  natDigitsFuel_length_le b hb n k n (Nat.le_refl n) hk hn

/-- Lowercase hex digit character code, as JS `Number.prototype.toString(16)`
emits. -/
def hexDigitAscii (d : Nat) : Nat := if d < 10 then 48 + d else 87 + d

/-- Bytes of `n.toString(16)` (lowercase hex, ASCII). -/
def natToHexBytes (n : Nat) : List Nat := (natDigits 16 n).map hexDigitAscii

/-- Bytes of `` `${n}` `` (decimal, ASCII). -/
def natToDecBytes (n : Nat) : List Nat := (natDigits 10 n).map (fun d => 48 + d)

/-- Value of an ASCII hex digit; JS `parseInt(_, 16)` accepts both cases. -/
def hexDigitVal (c : Nat) : Option Nat :=
  if 48 ≤ c ∧ c ≤ 57 then some (c - 48)
  else if 97 ≤ c ∧ c ≤ 102 then some (c - 87)
  else if 65 ≤ c ∧ c ≤ 70 then some (c - 55)
  else none

/-- Value of an ASCII decimal digit. -/
def decDigitVal (c : Nat) : Option Nat :=
  if 48 ≤ c ∧ c ≤ 57 then some (c - 48) else none

/-- Accumulating phase of JS `parseInt`: consume the leading run of valid
digits, stopping (not failing) at the first invalid character. -/
def parseIntAcc (digitVal : Nat → Option Nat) (b : Nat) : List Nat → Nat → Nat
  | [], acc => acc
  | c :: r, acc =>
    match digitVal c with
    | some v => parseIntAcc digitVal b r (acc * b + v)
    | none => acc

/-- JS `parseInt(s, b)` on a byte view of `s`: `none` models `NaN` (no
leading digit). The inputs in this development carry no sign or leading
whitespace, so those `parseInt` features are not modelled. -/
def parseIntBytes (digitVal : Nat → Option Nat) (b : Nat) : List Nat → Option Nat
  | [] => none
  | c :: r =>
    match digitVal c with
    | some v => some (parseIntAcc digitVal b r v)
    | none => none

/-- `parseInt(s, 16)` on bytes. -/
def parseHexBytes : List Nat → Option Nat := parseIntBytes hexDigitVal 16

/-- `parseInt(s, 10)` on bytes. -/
def parseDecBytes : List Nat → Option Nat := parseIntBytes decDigitVal 10

theorem parseIntAcc_map (digitVal : Nat → Option Nat) (b : Nat)
    (f : Nat → Nat) (ds : List Nat) (hf : ∀ d ∈ ds, digitVal (f d) = some d) :
    ∀ acc, parseIntAcc digitVal b (ds.map f) acc = ds.foldl (fun a d => a * b + d) acc := by
  induction ds with
  | nil => intro acc; rfl
  | cons d ds ih =>
    intro acc
    have hd := hf d (by simp)
    simp only [List.map_cons, parseIntAcc, hd, List.foldl_cons]
    exact ih (fun x hx => hf x (by simp [hx])) _

theorem hexDigitVal_ascii : ∀ d < 16, hexDigitVal (hexDigitAscii d) = some d := by decide

theorem decDigitVal_ascii : ∀ d < 10, decDigitVal (48 + d) = some d := by decide

theorem parseDecBytes_natToDecBytes (n : Nat) :
    parseDecBytes (natToDecBytes n) = some n := by
  have hds := natDigits_lt 10 n (by omega)
  have hne := natDigits_ne_nil 10 n
  have hval := digitsVal_natDigits 10 n (by omega)
  rcases hd : natDigits 10 n with _ | ⟨d, ds⟩
  · exact absurd hd hne
  · rw [hd] at hds hval
    have hd0 : decDigitVal (48 + d) = some d := decDigitVal_ascii d (hds d (by simp))
    simp only [natToDecBytes, hd, List.map_cons, parseDecBytes, parseIntBytes, hd0]
    rw [parseIntAcc_map decDigitVal 10 _ ds (fun x hx => decDigitVal_ascii x (hds x (by simp [hx])))]
    rw [show ds.foldl (fun a d => a * 10 + d) d = digitsVal 10 (d :: ds) from by
      simp [digitsVal]]
    rw [hval]

theorem parseHexBytes_natToHexBytes_aux (ds : List Nat) (hds : ∀ d ∈ ds, d < 16)
    (hne : ds ≠ []) :
    parseHexBytes (ds.map hexDigitAscii) = some (digitsVal 16 ds) := by
  rcases ds with _ | ⟨d, ds⟩
  · exact absurd rfl hne
  · have hd0 : hexDigitVal (hexDigitAscii d) = some d := hexDigitVal_ascii d (hds d (by simp))
    simp only [List.map_cons, parseHexBytes, parseIntBytes, hd0]
    rw [parseIntAcc_map hexDigitVal 16 _ ds (fun x hx => hexDigitVal_ascii x (hds x (by simp [hx])))]
    simp [digitsVal]

theorem parseHexBytes_natToHexBytes (n : Nat) :
    parseHexBytes (natToHexBytes n) = some n := by
  rw [natToHexBytes,
    parseHexBytes_natToHexBytes_aux _ (natDigits_lt 16 n (by omega)) (natDigits_ne_nil 16 n),
    digitsVal_natDigits 16 n (by omega)]

/-- `s.padStart(4, '0')` on the byte view of `s`. -/
def padStart4 (l : List Nat) : List Nat := List.replicate (4 - l.length) 48 ++ l

theorem parseIntAcc_hex_zeros (m : Nat) (l : List Nat) :
    parseIntAcc hexDigitVal 16 (List.replicate m 48 ++ l) 0 =
      parseIntAcc hexDigitVal 16 l 0 := by
  induction m with
  | zero => simp
  | succ m ih =>
    have h48 : hexDigitVal 48 = some 0 := by decide
    simp only [List.replicate_succ, List.cons_append, parseIntAcc, h48, Nat.zero_mul,
      Nat.zero_add, Nat.add_zero]
    exact ih

theorem parseHexBytes_replicate (k : Nat) (l : List Nat) (v : Nat)
    (h : parseHexBytes l = some v) :
    parseHexBytes (List.replicate k 48 ++ l) = some v := by
  cases k with
  | zero => simpa using h
  | succ k =>
    have h48 : hexDigitVal 48 = some 0 := by decide
    rcases l with _ | ⟨c, r⟩
    · simp [parseHexBytes, parseIntBytes] at h
    · rcases hc : hexDigitVal c with _ | w
      · simp [parseHexBytes, parseIntBytes, hc] at h
      · have hv : parseIntAcc hexDigitVal 16 r w = v := by
          simpa [parseHexBytes, parseIntBytes, hc] using h
        simp only [List.replicate_succ, List.cons_append, parseHexBytes, parseIntBytes, h48]
        rw [parseIntAcc_hex_zeros k (c :: r)]
        simp [parseIntAcc, hc, hv]

theorem parseHexBytes_padStart4 (n : Nat) :
    parseHexBytes (padStart4 (natToHexBytes n)) = some n :=
  parseHexBytes_replicate _ _ _ (parseHexBytes_natToHexBytes n)

theorem takeWhile_append_all (p : Nat → Bool) (l₁ l₂ : List Nat) (h : ∀ x ∈ l₁, p x) :
    (l₁ ++ l₂).takeWhile p = l₁ ++ l₂.takeWhile p := by
  induction l₁ with
  | nil => simp
  | cons x l ih =>
    have hx : p x = true := h x (by simp)
    have ih' := ih (fun y hy => h y (by simp [hy]))
    simp [hx, ih']

theorem dropWhile_append_all (p : Nat → Bool) (l₁ l₂ : List Nat) (h : ∀ x ∈ l₁, p x) :
    (l₁ ++ l₂).dropWhile p = l₂.dropWhile p := by
  induction l₁ with
  | nil => simp
  | cons x l ih =>
    have hx : p x = true := h x (by simp)
    have ih' := ih (fun y hy => h y (by simp [hy]))
    simp [hx, ih']

/-! ## SHA-1 (`crypto.createHash('sha1')`), FIPS 180 -/

/-- Truncation to 32 bits. -/
def w32 (n : Nat) : Nat := n % 4294967296

/-- 32-bit rotate left by `k`. -/
def rotl32 (k n : Nat) : Nat := w32 ((w32 n <<< k) ||| (w32 n >>> (32 - k)))

/-- Big-endian 32-bit words from a byte list (length a multiple of 4). -/
def beWords : List Nat → List Nat
  | a :: b :: c :: d :: rest => (a * 16777216 + b * 65536 + c * 256 + d) :: beWords rest
  | _ => []

/-- Split a word list into 16-word blocks (fuel-structural; the list length
always is sufficient fuel). -/
def chunk16Fuel : Nat → List Nat → List (List Nat)
  | 0, _ => []
  | _, [] => []
  | fuel + 1, w :: ws => ((w :: ws).take 16) :: chunk16Fuel fuel ((w :: ws).drop 16)

/-- Split a word list into 16-word blocks. -/
def chunk16 (l : List Nat) : List (List Nat) := chunk16Fuel l.length l

/-- Big-endian 8-byte encoding of `n`. -/
def beBytes8 (n : Nat) : List Nat :=
  [n / 72057594037927936 % 256, n / 281474976710656 % 256, n / 1099511627776 % 256,
   n / 4294967296 % 256, n / 16777216 % 256, n / 65536 % 256, n / 256 % 256, n % 256]

/-- SHA-1 message padding: `0x80`, zeros to 56 mod 64, then the bit length. -/
def sha1Pad (msg : List Nat) : List Nat :=
  msg ++ 128 :: List.replicate ((55 + 64 - msg.length % 64) % 64) 0 ++ beBytes8 (msg.length * 8)

/-- One step of the SHA-1 message-schedule extension. -/
def sha1ExtendStep (ws : List Nat) : List Nat :=
  ws ++ [rotl32 1 (ws.getD (ws.length - 3) 0 ^^^ ws.getD (ws.length - 8) 0 ^^^
    ws.getD (ws.length - 14) 0 ^^^ ws.getD (ws.length - 16) 0)]

/-- SHA-1 round function. -/
def sha1F (t b c d : Nat) : Nat :=
  if t < 20 then (b &&& c) ||| ((b ^^^ 4294967295) &&& d)
  else if t < 40 then b ^^^ c ^^^ d
  else if t < 60 then (b &&& c) ||| (b &&& d) ||| (c &&& d)
  else b ^^^ c ^^^ d

/-- SHA-1 round constants. -/
def sha1K (t : Nat) : Nat :=
  if t < 20 then 1518500249 else if t < 40 then 1859775393
  else if t < 60 then 2400959708 else 3395469782

/-- The 80 compression rounds, one per schedule word. -/
def sha1RoundsAux : Nat → List Nat → Nat × Nat × Nat × Nat × Nat → Nat × Nat × Nat × Nat × Nat
  | _, [], st => st
  | t, w :: ws, (a, b, c, d, e) =>
    sha1RoundsAux (t + 1) ws
      (w32 (rotl32 5 a + sha1F t b c d + e + sha1K t + w), a, rotl32 30 b, c, d)

/-- Process one 16-word block. -/
def sha1Block (h : Nat × Nat × Nat × Nat × Nat) (block : List Nat) :
    Nat × Nat × Nat × Nat × Nat :=
  let ws := sha1ExtendStep^[64] block
  match sha1RoundsAux 0 ws h, h with
  | (a, b, c, d, e), (h0, h1, h2, h3, h4) =>
    (w32 (h0 + a), w32 (h1 + b), w32 (h2 + c), w32 (h3 + d), w32 (h4 + e))

/-- SHA-1 digest of a byte list, as five 32-bit words. -/
def sha1WordsOf (msg : List Nat) : List Nat :=
  match (chunk16 (beWords (sha1Pad msg))).foldl sha1Block
      (1732584193, 4023233417, 2562383102, 271733878, 3285377520) with
  | (h0, h1, h2, h3, h4) => [h0, h1, h2, h3, h4]

/-- A 32-bit word as 8 lowercase hex characters (zero padded). -/
def hexPad8 (n : Nat) : List Nat :=
  List.replicate (8 - (natToHexBytes n).length) 48 ++ natToHexBytes n

/-- `crypto.createHash('sha1').update(bytes).digest('hex')`: the lowercase
40-character hexadecimal SHA-1 digest. -/
def sha1Hex (msg : List Nat) : String :=
  bytesStr ((sha1WordsOf msg).map hexPad8).flatten

/-! ## Object store (`app/utils/objectUtils.js`, `src/unnamed/part_000`) -/

/-- Framed form `"<kind> <len>\0" ++ payload` built by `writeGitObject`
(`const header = `${type} ${content.length}\0``). -/
def frame (type : String) (content : List Nat) : List Nat :=
  strBytes type ++ 32 :: natToDecBytes content.length ++ 0 :: content

/-- The repository's test vector S2: the 12-byte file `hello world\n` hashes
to `3b18e512dba79e4c8300dd08aeb37f8e728b8dad`, validating this SHA-1. -/
theorem sha1Hex_spec_vector :
    sha1Hex (frame "blob" (strBytes "hello world\n")) =
      "3b18e512dba79e4c8300dd08aeb37f8e728b8dad" := by decide

/-- The loose object store: 40-char lowercase-hex identity to the inflated
bytes of the stored file. The two-level `aa/bb…` path layout is collapsed
into the identity key (path ↔ identity is a bijection), and the zlib
deflate/inflate inverse pair applied at the file boundary is elided, so the
stored value is the framed form itself. -/
def Store := String → Option (List Nat)

/-- Point update of the store (one file written). -/
def Store.insert (σ : Store) (k : String) (v : List Nat) : Store :=
  fun s => if s = k then some v else σ s

theorem Store.insert_self (σ : Store) (k : String) (v : List Nat) :
    σ.insert k v k = some v := by simp [Store.insert]

/-- Filesystem write events of the object store. -/
inductive FsEvent
  | writeObjectFile (hash : String) (bytes : List Nat)
deriving DecidableEq

/-- `writeGitObject(type, content)` from `app/utils/objectUtils.js` lines
12–33: frame, hash, and write the compressed object file unless it already
exists. Returns the hex identity, the updated store, and the file writes
performed (the `mkdirSync` of the fan-out directory is not tracked; only
object-file writes are events). -/
def writeGitObject (type : String) (content : List Nat) (σ : Store) :
    String × Store × List FsEvent :=
  let store := frame type content
  let hash := sha1Hex store
  match σ hash with
  | some _ => (hash, σ, [])
  | none => (hash, σ.insert hash store, [.writeObjectFile hash store])

/-- Result of `readObject`: `notFound` is the `null` return, `err` collapses
the distinct thrown `Error`s (missing null separator, `NaN` size, size
mismatch). -/
inductive ReadResult
  | notFound
  | err
  | ok (type : String) (content : List Nat)
deriving DecidableEq

/-- The pure parsing part of `readObject` (`src/unnamed/part_000` lines
168–189): split the inflated bytes at the first null byte, destructure
`header.split(" ")` into its first two fields, `parseInt` the size and check
it against the content length. -/
def parseObjectFile (decompressedContent : List Nat) : ReadResult :=
  let header := decompressedContent.takeWhile (fun b => b != 0)
  match decompressedContent.dropWhile (fun b => b != 0) with
  | [] => .err            -- indexOf(0) = -1
  | _ :: content =>
    let type := header.takeWhile (fun b => b != 32)
    match header.dropWhile (fun b => b != 32) with
    | [] => .err          -- sizeStr undefined, parseInt(undefined) is NaN
    | _ :: rest2 =>
      match parseDecBytes (rest2.takeWhile (fun b => b != 32)) with
      | none => .err
      | some size =>
        if size = content.length then .ok (bytesStr type) content else .err

/-- `readObject(sha)` from `src/unnamed/part_000` lines 152–194. -/
def readObject (sha : String) (σ : Store) : ReadResult :=
  match σ sha with
  | none => .notFound
  | some decompressedContent => parseObjectFile decompressedContent

theorem takeWhile_all (p : Nat → Bool) (l : List Nat) (h : ∀ x ∈ l, p x) :
    l.takeWhile p = l := by
  induction l with
  | nil => simp
  | cons x l ih =>
    have hx : p x = true := h x (by simp)
    have ih' := ih (fun y hy => h y (by simp [hy]))
    simp [hx, ih']

theorem natToDecBytes_bounds (n : Nat) : ∀ x ∈ natToDecBytes n, 48 ≤ x ∧ x < 58 := by
  intro x hx
  rcases List.mem_map.mp hx with ⟨d, hd, rfl⟩
  have := natDigits_lt 10 n (by omega) d hd
  omega

/-- Reading back a framed object parses to exactly the written kind and
payload, provided the kind string contains no null and no space bytes. -/
theorem parseObjectFile_frame (type : String) (content : List Nat)
    (h0 : ∀ x ∈ strBytes type, (x != 0) = true)
    (h32 : ∀ x ∈ strBytes type, (x != 32) = true)
    (hs : bytesStr (strBytes type) = type) :
    parseObjectFile (frame type content) = .ok type content := by
  have hD := natToDecBytes_bounds content.length
  have hA0 : ∀ x ∈ strBytes type ++ 32 :: natToDecBytes content.length, (x != 0) = true := by
    intro x hx
    rcases List.mem_append.mp hx with h | h
    · exact h0 x h
    · rcases List.mem_cons.mp h with rfl | h
      · decide
      · have := hD x h
        simp only [bne_iff_ne, ne_eq]
        omega
  have hassoc : frame type content =
      (strBytes type ++ 32 :: natToDecBytes content.length) ++ 0 :: content := by
    simp [frame]
  have htake0 : (0 :: content).takeWhile (fun b => b != 0) = [] := by
    simp [List.takeWhile_cons]
  have hdrop0 : (0 :: content).dropWhile (fun b => b != 0) = 0 :: content := by
    simp [List.dropWhile_cons]
  have htake32 : (32 :: natToDecBytes content.length).takeWhile (fun b => b != 32) = [] := by
    simp [List.takeWhile_cons]
  have hdrop32 : (32 :: natToDecBytes content.length).dropWhile (fun b => b != 32) =
      32 :: natToDecBytes content.length := by
    simp [List.dropWhile_cons]
  have htakeD : (natToDecBytes content.length).takeWhile (fun b => b != 32) =
      natToDecBytes content.length := by
    apply takeWhile_all
    intro x hx
    have := hD x hx
    simp only [bne_iff_ne, ne_eq]
    omega
  rw [parseObjectFile, hassoc]
  rw [takeWhile_append_all _ _ _ hA0, dropWhile_append_all _ _ _ hA0, htake0, hdrop0]
  simp only [List.append_nil]
  rw [takeWhile_append_all _ _ _ h32, dropWhile_append_all _ _ _ h32, htake32, hdrop32]
  simp only [List.append_nil]
  rw [htakeD, parseDecBytes_natToDecBytes]
  simp [hs]

/-- The four object kinds of the claim. -/
def isObjectKind (type : String) : Prop :=
  type = "commit" ∨ type = "tree" ∨ type = "blob" ∨ type = "tag"

theorem parseObjectFile_frame_kind (type : String) (content : List Nat)
    (hk : isObjectKind type) :
    parseObjectFile (frame type content) = .ok type content := by
  rcases hk with rfl | rfl | rfl | rfl <;>
    exact parseObjectFile_frame _ _ (by decide) (by decide) (by decide)

/-- C1: for every kind in {commit, tree, blob, tag} and every payload,
writing the object returns the identity `SHA1("<kind> <len>\0" ++ payload)`
(lowercase hex), and reading that identity back from the updated store
yields exactly the written kind and payload.  The store hypothesis states
that the target file either does not exist yet or already holds this very
object (the content-addressed invariant the source relies on when it skips
the write). -/
theorem writeGitObject_readObject_roundTrip (type : String) (content : List Nat) (σ : Store)
    (hk : isObjectKind type)
    (hσ : σ (sha1Hex (frame type content)) = none ∨
          σ (sha1Hex (frame type content)) = some (frame type content)) :
    (writeGitObject type content σ).1 = sha1Hex (frame type content) ∧
    readObject (writeGitObject type content σ).1 (writeGitObject type content σ).2.1 =
      .ok type content := by
  rcases hσ with hσ | hσ
  · rw [writeGitObject]
    simp only [hσ]
    refine ⟨by trivial, ?_⟩
    rw [readObject, Store.insert_self]
    exact parseObjectFile_frame_kind type content hk
  · rw [writeGitObject]
    simp only [hσ]
    refine ⟨by trivial, ?_⟩
    rw [readObject, hσ]
    exact parseObjectFile_frame_kind type content hk

/-- Witness for C1 at kind `blob`, payload `hi`, over the empty store. -/
theorem writeGitObject_readObject_roundTrip_witness :
    isObjectKind "blob" ∧
    ((writeGitObject "blob" [104, 105] (fun _ => none)).1 =
        sha1Hex (frame "blob" [104, 105]) ∧
      readObject (writeGitObject "blob" [104, 105] (fun _ => none)).1
          (writeGitObject "blob" [104, 105] (fun _ => none)).2.1 =
        .ok "blob" [104, 105]) :=
  ⟨Or.inr (Or.inr (Or.inl rfl)),
    writeGitObject_readObject_roundTrip "blob" [104, 105] (fun _ => none)
      (Or.inr (Or.inr (Or.inl rfl))) (Or.inl rfl)⟩

/-- C8: object-store writes are idempotent.  First conjunct: a write whose
target object file already exists performs no file write and leaves the
store untouched (the skip in `writeGitObject` lines 22–31).  Second
conjunct: a second write of the same (kind, payload) returns the same
identity, changes nothing on disk, and emits no write event, so two
successive writes leave identical bytes on disk; `writeGitObject` is a
total function, so neither call can fail. -/
theorem writeGitObject_idempotent (type : String) (content : List Nat) (σ : Store) :
    (∀ v, σ (sha1Hex (frame type content)) = some v →
      writeGitObject type content σ = (sha1Hex (frame type content), σ, [])) ∧
    writeGitObject type content (writeGitObject type content σ).2.1 =
      ((writeGitObject type content σ).1, (writeGitObject type content σ).2.1, []) := by
  constructor
  · intro v hv
    rw [writeGitObject]
    simp only [hv]
  · rcases hσ : σ (sha1Hex (frame type content)) with _ | v
    · have h1 : (writeGitObject type content σ).2.1 =
          σ.insert (sha1Hex (frame type content)) (frame type content) := by
        rw [writeGitObject]
        simp only [hσ]
      have h2 : (writeGitObject type content σ).1 = sha1Hex (frame type content) := by
        rw [writeGitObject]
        simp only [hσ]
      rw [h1, h2, writeGitObject]
      simp only [Store.insert_self]
    · have h1 : (writeGitObject type content σ).2.1 = σ := by
        rw [writeGitObject]
        simp only [hσ]
      have h2 : (writeGitObject type content σ).1 = sha1Hex (frame type content) := by
        rw [writeGitObject]
        simp only [hσ]
      rw [h1, h2, writeGitObject]
      simp only [hσ]

/-- Witness for C8: over a store in which every file exists, the write at
kind `blob` and payload `[104]` is skipped entirely. -/
theorem writeGitObject_idempotent_witness :
    writeGitObject "blob" [104] (fun _ => some (frame "blob" [104])) =
      (sha1Hex (frame "blob" [104]), (fun _ => some (frame "blob" [104])), []) :=
  (writeGitObject_idempotent "blob" [104] (fun _ => some (frame "blob" [104]))).1
    (frame "blob" [104]) rfl

/-! ## Pkt-line codec (`app/utils/repositoryUtils.js`) -/

/-- `formatPktLine(line)` (`repositoryUtils.js` lines 213–216): the 4-hex
zero-padded lowercase encoding of `line.length + 4` followed by the line,
on the byte view of the JS string (the payloads the source encodes are
ASCII, where `line.length` is the byte count).  As in the source,
`padStart` pads but never truncates. -/
def formatPktLine (line : List Nat) : List Nat :=
  padStart4 (natToHexBytes (line.length + 4)) ++ line

/-- Outcome of one step of the pkt-line decoding loop. -/
inductive PktStep
  | flush (next : Nat)
  | skipZero (next : Nat)
  | record (data : List Nat) (next : Nat)
  | invalid
deriving DecidableEq

/-- One step of the pkt-line decoding loop (`parsePktLine`,
`repositoryUtils.js` lines 149–167): read the 4-byte length, detect flush,
`parseInt` it, bounds-check, and slice out the record payload together with
the offset of the next record.  `invalid` is the throw on an over-long
record; a non-hex length (`parseInt` = `NaN`, under which the JS loop's
comparisons are all false and it stalls) is also mapped to `invalid`, a
case no encoded input reaches. -/
def parsePktStep (buffer : List Nat) (offset : Nat) : PktStep :=
  let lengthHex := (buffer.drop offset).take 4
  if lengthHex = [48, 48, 48, 48] then .flush (offset + 4)
  else
    match parseHexBytes lengthHex with
    | none => .invalid
    | some length =>
      if length = 0 then .skipZero (offset + 4)
      else if offset + length > buffer.length then .invalid
      else .record ((buffer.drop (offset + 4)).take (length - 4)) (offset + length)

theorem padStart4_length (l : List Nat) (h : l.length ≤ 4) :
    (padStart4 l).length = 4 := by
  simp only [padStart4, List.length_append, List.length_replicate]
  omega

/-- C6: pkt-line round trip.  For every payload `P` with
`4 ≤ len(P) + 4 ≤ 0xFFFF`, decoding the pkt-line `formatPktLine P` yields
exactly the payload `P` (and positions the cursor after the record). -/
theorem pktLine_roundTrip (P : List Nat) (h : P.length + 4 ≤ 65535) :
    parsePktStep (formatPktLine P) 0 = .record P (P.length + 4) := by
  have hdiglen : (natToHexBytes (P.length + 4)).length ≤ 4 := by
    have := natDigits_length_le 16 4 (by omega) (by omega) (P.length + 4) (by omega)
    simpa [natToHexBytes] using this
  have hpadlen : (padStart4 (natToHexBytes (P.length + 4))).length = 4 :=
    padStart4_length _ hdiglen
  have hparse : parseHexBytes (padStart4 (natToHexBytes (P.length + 4))) =
      some (P.length + 4) := parseHexBytes_padStart4 (P.length + 4)
  have htake : (formatPktLine P).take 4 = padStart4 (natToHexBytes (P.length + 4)) := by
    rw [formatPktLine]
    exact List.take_left' hpadlen
  have hdrop : (formatPktLine P).drop 4 = P := by
    rw [formatPktLine]
    exact List.drop_left' hpadlen
  have hne : (formatPktLine P).take 4 ≠ [48, 48, 48, 48] := by
    rw [htake]
    intro hc
    rw [hc] at hparse
    have h0000 : parseHexBytes [48, 48, 48, 48] = some 0 := by decide
    rw [h0000] at hparse
    injection hparse with hparse
    omega
  have hlen : (formatPktLine P).length = 4 + P.length := by
    rw [formatPktLine, List.length_append, hpadlen]
  rw [parsePktStep]
  simp only [List.drop_zero]
  rw [if_neg hne, htake]
  simp only [hparse]
  rw [if_neg (by omega : ¬(P.length + 4 = 0))]
  rw [if_neg (show ¬(0 + (P.length + 4) > (formatPktLine P).length) by rw [hlen]; omega)]
  rw [show (0 : Nat) + 4 = 4 from rfl, hdrop]
  simp

/-- Witness for C6 at the payload `abc`. -/
theorem pktLine_roundTrip_witness :
    [97, 98, 99].length + 4 ≤ 65535 ∧
    parsePktStep (formatPktLine [97, 98, 99]) 0 = .record [97, 98, 99] (3 + 4) :=
  ⟨by decide, pktLine_roundTrip [97, 98, 99] (by decide)⟩

/-! ## Delta reconstructor (`applyDelta`, clone.js lines 255–340) -/

/-- The `Delta error:` throws of `applyDelta`, one constructor per message. -/
inductive DeltaErr
  | eofSourceSize | eofTargetSize | sourceSizeMismatch
  | eofCopyOffset | eofCopySize
  | copyOobBase | copyOobTarget
  | addZero | addOobDelta | addOobTarget
  | targetSizeMismatch
deriving DecidableEq

/-- The `while (byte & 0x80)` continuation loop shared by the two
variable-length size reads: each continuation byte is bounds-checked, and
its low 7 bits are or-ed in at the current shift — disjoint bit ranges,
written as `acc + b % 128 * 2 ^ shift`. -/
def readVarLoop (e : DeltaErr) : Nat → Nat → Nat → List Nat → Except DeltaErr (Nat × List Nat)
  | byte, acc, shift, rest =>
    if byte.testBit 7 then
      match rest with
      | [] => .error e
      | b :: rest' => readVarLoop e b (acc + b % 128 * 2 ^ shift) (shift + 7) rest'
    else .ok (acc, rest)

/-- Reading the declared source size (lines 258–266).  The first byte is
read without a bounds check (`deltaData[deltaOffset++]`); on an empty
buffer the JS indexing yields `undefined`, which the bitwise ops coerce
to 0. -/
def readSourceSize : List Nat → Except DeltaErr (Nat × List Nat)
  | [] => readVarLoop .eofSourceSize 0 0 7 []
  | b :: rest => readVarLoop .eofSourceSize b (b % 128) 7 rest

/-- Reading the declared target size (lines 271–280); here the first byte
*is* bounds-checked (line 271). -/
def readTargetSize : List Nat → Except DeltaErr (Nat × List Nat)
  | [] => .error .eofTargetSize
  | b :: rest => readVarLoop .eofTargetSize b (b % 128) 7 rest

/-- Read one byte per set gate bit (the copy-instruction operand fields,
lines 291–305); a cleared gate contributes a zero byte at its position. -/
def readGatedBytes : List Bool → List Nat → Option (List Nat × List Nat)
  | [], rest => some ([], rest)
  | g :: gs, rest =>
    if g then
      match rest with
      | [] => none
      | b :: r => (readGatedBytes gs r).map (fun p => (b :: p.1, p.2))
    else (readGatedBytes gs rest).map (fun p => (0 :: p.1, p.2))

/-- Value of little-endian gated bytes (the source's `value |= byte <<
shift` at shifts 0, 8, 16, …, over disjoint byte positions). -/
def leVal : List Nat → Nat
  | [] => 0
  | b :: r => b + 256 * leVal r

/-- Parse the operand bytes of a copy instruction (lines 288–305): up to
four offset bytes gated by bits 0–3 of the instruction, then up to three
size bytes gated by bits 4–6. -/
def readCopyArgs (instr : Nat) (rest : List Nat) :
    Except DeltaErr (Nat × Nat × List Nat) :=
  match readGatedBytes [instr.testBit 0, instr.testBit 1, instr.testBit 2, instr.testBit 3] rest with
  | none => .error .eofCopyOffset
  | some (os, r) =>
    match readGatedBytes [instr.testBit 4, instr.testBit 5, instr.testBit 6] r with
    | none => .error .eofCopySize
    | some (ss, r') => .ok (leVal os, leVal ss, r')

theorem readGatedBytes_length (gs : List Bool) :
    ∀ rest vs r', readGatedBytes gs rest = some (vs, r') → r'.length ≤ rest.length := by
  induction gs with
  | nil =>
    intro rest vs r' h
    simp only [readGatedBytes, Option.some.injEq, Prod.mk.injEq] at h
    rw [← h.2]
  | cons g gs ih =>
    intro rest vs r' h
    simp only [readGatedBytes] at h
    by_cases hg : g
    · rw [if_pos hg] at h
      cases rest with
      | nil => simp at h
      | cons b r =>
        simp only [Option.map_eq_some'] at h
        obtain ⟨⟨vs', r''⟩, hrec, hpair⟩ := h
        have := ih r vs' r'' hrec
        simp only [Prod.mk.injEq] at hpair
        rw [← hpair.2]
        simp only [List.length_cons]
        omega
    · rw [if_neg hg] at h
      simp only [Option.map_eq_some'] at h
      obtain ⟨⟨vs', r''⟩, hrec, hpair⟩ := h
      simp only [Prod.mk.injEq] at hpair
      rw [← hpair.2]
      exact ih rest vs' r'' hrec

theorem readCopyArgs_length (instr : Nat) (rest : List Nat) (o s : Nat) (r : List Nat)
    (h : readCopyArgs instr rest = .ok (o, s, r)) : r.length ≤ rest.length := by
  rw [readCopyArgs] at h
  rcases h1 : readGatedBytes [instr.testBit 0, instr.testBit 1, instr.testBit 2,
      instr.testBit 3] rest with _ | ⟨os, r1⟩
  · rw [h1] at h
    simp at h
  · rw [h1] at h
    simp only [] at h
    rcases h2 : readGatedBytes [instr.testBit 4, instr.testBit 5, instr.testBit 6] r1
        with _ | ⟨ss, r2⟩
    · rw [h2] at h
      simp at h
    · rw [h2] at h
      simp only [] at h
      simp only [Except.ok.injEq, Prod.mk.injEq] at h
      have ha := readGatedBytes_length _ rest os r1 h1
      have hb := readGatedBytes_length _ r1 ss r2 h2
      obtain ⟨ho, hs, hr⟩ := h
      rw [← hr]
      omega

/-- The instruction loop of `applyDelta` (lines 285–333) with the final
size check (line 335).  `Buffer.alloc(targetSize)` filled by region copies
at a strictly advancing cursor is modelled as an append-built accumulator;
each bounds check is performed against `targetSize` exactly where the
source checks against the preallocated buffer.  The `fuel` argument makes
the recursion structural (each iteration consumes at least the instruction
byte, so the delta length is always sufficient fuel; the fuel-exhaustion
branch is unreachable from `applyDelta`). -/
def applyDeltaLoop (base : List Nat) (targetSize : Nat) :
    Nat → List Nat → List Nat → Except DeltaErr (List Nat)
  | _, [], acc =>
    if acc.length ≠ targetSize then .error .targetSizeMismatch else .ok acc
  | 0, _ :: _, _ => .error .targetSizeMismatch
  | fuel + 1, instr :: rest, acc =>
    if instr.testBit 7 then
      match readCopyArgs instr rest with
      | .error e => .error e
      | .ok (copyOffset, copySize0, r) =>
        let copySize := if copySize0 = 0 then 65536 else copySize0
        if copyOffset + copySize > base.length then .error .copyOobBase
        else if acc.length + copySize > targetSize then .error .copyOobTarget
        else applyDeltaLoop base targetSize fuel r (acc ++ (base.drop copyOffset).take copySize)
    else
      let addSize := instr % 128
      if addSize = 0 then .error .addZero
      else if addSize > rest.length then .error .addOobDelta
      else if acc.length + addSize > targetSize then .error .addOobTarget
      else applyDeltaLoop base targetSize fuel (rest.drop addSize) (acc ++ rest.take addSize)

/-- `applyDelta(baseContent, deltaData)` (clone.js lines 255–340, duplicated
at `repositoryUtils.js` lines 422–517): read and check the declared source
size, read the target size, then run the instruction loop. -/
def applyDelta (baseContent deltaData : List Nat) : Except DeltaErr (List Nat) :=
  match readSourceSize deltaData with
  | .error e => .error e
  | .ok (sourceSize, rest) =>
    if sourceSize ≠ baseContent.length then .error .sourceSizeMismatch
    else
      match readTargetSize rest with
      | .error e => .error e
      | .ok (targetSize, rest') =>
        applyDeltaLoop baseContent targetSize deltaData.length rest' []

instance {e a : Type} [DecidableEq e] [DecidableEq a] : DecidableEq (Except e a) := fun x y =>
  match x, y with
  | .ok u, .ok v =>
    if h : u = v then .isTrue (by rw [h]) else .isFalse (fun hc => h (Except.ok.inj hc))
  | .error u, .error v =>
    if h : u = v then .isTrue (by rw [h]) else .isFalse (fun hc => h (Except.error.inj hc))
  | .ok _, .error _ => .isFalse (fun hc => Except.noConfusion hc)
  | .error _, .ok _ => .isFalse (fun hc => Except.noConfusion hc)

/-- The spec's S4 scenario (authored against the §4.C7 encoding): base
`ABCDE` with delta `[05][02][0x91 0x01 0x02]` — source size 5, target size
2, copy with one offset byte 1 and one size byte 2 — reconstructs `BC`. -/
theorem applyDelta_spec_vector :
    applyDelta [65, 66, 67, 68, 69] [5, 2, 145, 1, 2] = .ok [66, 67] := by decide

/-- C4: delta size enforcement.  Whenever the variable-length source size
declared at the start of `D` (as `readSourceSize` decodes it) differs from
the length of `B`, `applyDelta B D` fails with the source-size `DeltaError`
and produces no result. -/
theorem applyDelta_sourceSize_enforced (B D : List Nat) (s : Nat) (rest : List Nat)
    (hread : readSourceSize D = .ok (s, rest)) (hne : s ≠ B.length) :
    applyDelta B D = .error .sourceSizeMismatch := by
  rw [applyDelta, hread]
  simp [hne]

/-- Witness for C4: a delta declaring source size 5 against a 3-byte base. -/
theorem applyDelta_sourceSize_enforced_witness :
    readSourceSize [5] = .ok (5, []) ∧ (5 : Nat) ≠ [1, 2, 3].length ∧
    applyDelta [1, 2, 3] [5] = .error .sourceSizeMismatch :=
  ⟨by decide, by decide,
    applyDelta_sourceSize_enforced [1, 2, 3] [5] 5 [] (by decide) (by decide)⟩

/-! ## Delta encoder (the spec's legal copy/insert ops, §4.C7) -/

/-- Abstract delta instructions. -/
inductive DeltaOp
  | copy (off sz : Nat)
  | insert (bytes : List Nat)
deriving DecidableEq

/-- Intended effect of one op against the base. -/
def opTarget (base : List Nat) : DeltaOp → List Nat
  | .copy off sz => (base.drop off).take sz
  | .insert bs => bs

/-- Intended target of an op sequence. -/
def opsTarget (base : List Nat) (ops : List DeltaOp) : List Nat :=
  (ops.map (opTarget base)).flatten

/-- Legality of one op over the base, per §4.C7: copies stay inside the
base and have a nonzero size expressible on the wire (at most three
little-endian size bytes; `0x10000` is also expressible through the
decoder's zero default) with the offset fitting the four offset bytes;
inserts carry between 1 and 127 bytes (the 7-bit immediate). -/
def legalOp (base : List Nat) : DeltaOp → Prop
  | .copy off sz => off + sz ≤ base.length ∧ 1 ≤ sz ∧ sz < 16777216 ∧ off < 4294967296
  | .insert bs => 1 ≤ bs.length ∧ bs.length ≤ 127

instance (base : List Nat) : (op : DeltaOp) → Decidable (legalOp base op)
  | .copy off sz => inferInstanceAs
      (Decidable (off + sz ≤ base.length ∧ 1 ≤ sz ∧ sz < 16777216 ∧ off < 4294967296))
  | .insert bs => inferInstanceAs (Decidable (1 ≤ bs.length ∧ bs.length ≤ 127))

/-- Fixed-width little-endian byte encoding. -/
def leBytes : Nat → Nat → List Nat
  | 0, _ => []
  | k + 1, n => n % 256 :: leBytes k (n / 256)

/-- Wire encoding of one op.  A copy sets bit 7 and all four offset-byte
gates; the size bytes are emitted explicitly (gates 4–6) except for size
`0x10000`, which is encoded with all size gates cleared (the decoder's
zero default).  An insert is its length byte followed by the payload. -/
def encodeOp : DeltaOp → List Nat
  | .copy off sz =>
    if sz = 65536 then 143 :: leBytes 4 off
    else 255 :: (leBytes 4 off ++ leBytes 3 sz)
  | .insert bs => bs.length :: bs

/-- 7-bit little-endian varint with continuation bits, the encoding both
size headers use. -/
def encodeVarint (n : Nat) : List Nat :=
  if n < 128 then [n] else (n % 128 + 128) :: encodeVarint (n / 128)
termination_by n
decreasing_by exact Nat.div_lt_self (by omega) (by omega)

/-- The delta stream for `ops` over `base`: declared source size
`base.length`, declared target size the intended target's length, then the
encoded instructions. -/
def encodeDelta (base : List Nat) (ops : List DeltaOp) : List Nat :=
  encodeVarint base.length ++ encodeVarint (opsTarget base ops).length ++
    (ops.map encodeOp).flatten

theorem encodeVarint_lt (m : Nat) (h : m < 128) : encodeVarint m = [m] := by
  unfold encodeVarint
  simp [h]

theorem encodeVarint_ge (m : Nat) (h : ¬m < 128) :
    encodeVarint m = (m % 128 + 128) :: encodeVarint (m / 128) := by
  conv_lhs => unfold encodeVarint
  simp [h]

theorem testBit7_false (n : Nat) (h : n < 128) : n.testBit 7 = false := by
  rw [Nat.testBit_to_div_mod]
  simp only [show (2 : Nat) ^ 7 = 128 from rfl]
  rw [decide_eq_false_iff_not]
  omega

theorem testBit7_true (n : Nat) (h1 : 128 ≤ n) (h2 : n < 256) : n.testBit 7 = true := by
  rw [Nat.testBit_to_div_mod]
  simp only [show (2 : Nat) ^ 7 = 128 from rfl]
  rw [decide_eq_true_eq]
  omega

theorem readVarLoop_step (e : DeltaErr) (b acc shift x : Nat) (xs : List Nat)
    (hb : b.testBit 7 = true) :
    readVarLoop e b acc shift (x :: xs) =
      readVarLoop e x (acc + x % 128 * 2 ^ shift) (shift + 7) xs := by
  rw [readVarLoop.eq_def]
  simp only []
  rw [if_pos hb]

theorem readVarLoop_stop (e : DeltaErr) (b acc shift : Nat) (rest : List Nat)
    (hb : b.testBit 7 = false) :
    readVarLoop e b acc shift rest = .ok (acc, rest) := by
  rw [readVarLoop.eq_def]
  simp only []
  rw [if_neg (by simp [hb])]

theorem readVarLoop_encode (e : DeltaErr) :
    ∀ m, 1 ≤ m → ∀ (acc shift : Nat) (rest : List Nat) (b : Nat), b.testBit 7 = true →
      readVarLoop e b acc shift (encodeVarint m ++ rest) = .ok (acc + m * 2 ^ shift, rest) := by
  intro m
  induction m using Nat.strong_induction_on with
  | _ m ih =>
    intro hm acc shift rest b hb
    by_cases h : m < 128
    · rw [encodeVarint_lt m h, List.singleton_append, readVarLoop_step e b acc shift m _ hb,
        readVarLoop_stop e m _ _ _ (testBit7_false m h), Nat.mod_eq_of_lt h]
    · rw [encodeVarint_ge m h, List.cons_append,
        readVarLoop_step e b acc shift (m % 128 + 128) _ hb]
      have hbit : (m % 128 + 128).testBit 7 = true := testBit7_true _ (by omega) (by omega)
      rw [ih (m / 128) (by omega) (by omega) _ (shift + 7) rest _ hbit]
      have harith : acc + (m % 128 + 128) % 128 * 2 ^ shift + m / 128 * 2 ^ (shift + 7) =
          acc + m * 2 ^ shift := by
        have h1 : (m % 128 + 128) % 128 = m % 128 := by omega
        have h2 : m % 128 + 128 * (m / 128) = m := Nat.mod_add_div m 128
        rw [h1, pow_add]
        calc acc + m % 128 * 2 ^ shift + m / 128 * (2 ^ shift * 2 ^ 7)
            = acc + (m % 128 + 2 ^ 7 * (m / 128)) * 2 ^ shift := by ring
          _ = acc + m * 2 ^ shift := by rw [show (2 : Nat) ^ 7 = 128 from rfl, h2]
      rw [harith]

theorem readSourceSize_encode (n : Nat) (rest : List Nat) :
    readSourceSize (encodeVarint n ++ rest) = .ok (n, rest) := by
  by_cases h : n < 128
  · rw [encodeVarint_lt n h, List.singleton_append, readSourceSize,
      readVarLoop_stop _ _ _ _ _ (testBit7_false n h), Nat.mod_eq_of_lt h]
  · rw [encodeVarint_ge n h, List.cons_append, readSourceSize]
    have hbit : (n % 128 + 128).testBit 7 = true := testBit7_true _ (by omega) (by omega)
    rw [readVarLoop_encode _ (n / 128) (by omega) _ 7 rest _ hbit]
    have h1 : (n % 128 + 128) % 128 = n % 128 := by omega
    rw [h1, show (2 : Nat) ^ 7 = 128 from rfl]
    have h2 : n % 128 + n / 128 * 128 = n := by omega
    rw [h2]

theorem readTargetSize_encode (n : Nat) (rest : List Nat) :
    readTargetSize (encodeVarint n ++ rest) = .ok (n, rest) := by
  by_cases h : n < 128
  · rw [encodeVarint_lt n h, List.singleton_append, readTargetSize,
      readVarLoop_stop _ _ _ _ _ (testBit7_false n h), Nat.mod_eq_of_lt h]
  · rw [encodeVarint_ge n h, List.cons_append, readTargetSize]
    have hbit : (n % 128 + 128).testBit 7 = true := testBit7_true _ (by omega) (by omega)
    rw [readVarLoop_encode _ (n / 128) (by omega) _ 7 rest _ hbit]
    have h1 : (n % 128 + 128) % 128 = n % 128 := by omega
    rw [h1, show (2 : Nat) ^ 7 = 128 from rfl]
    have h2 : n % 128 + n / 128 * 128 = n := by omega
    rw [h2]

theorem leBytes_length (k : Nat) : ∀ n, (leBytes k n).length = k := by
  induction k with
  | zero => intro n; rfl
  | succ k ih => intro n; simp [leBytes, ih]

theorem leVal_leBytes (k : Nat) : ∀ n, n < 256 ^ k → leVal (leBytes k n) = n := by
  induction k with
  | zero =>
    intro n hn
    simp only [pow_zero] at hn
    have : n = 0 := by omega
    subst this
    rfl
  | succ k ih =>
    intro n hn
    have hdiv : n / 256 < 256 ^ k := by
      rw [Nat.div_lt_iff_lt_mul (by omega : 0 < 256)]
      calc n < 256 ^ (k + 1) := hn
        _ = 256 ^ k * 256 := by ring
    simp only [leBytes, leVal]
    rw [ih (n / 256) hdiv]
    omega

theorem readGatedBytes_all_true (k : Nat) :
    ∀ (l rest : List Nat), l.length = k →
      readGatedBytes (List.replicate k true) (l ++ rest) = some (l, rest) := by
  induction k with
  | zero =>
    intro l rest hl
    rw [List.length_eq_zero] at hl
    subst hl
    rfl
  | succ k ih =>
    intro l rest hl
    rcases l with _ | ⟨b, l'⟩
    · simp at hl
    · show (readGatedBytes (List.replicate k true) (l' ++ rest)).map
        (fun p => (b :: p.1, p.2)) = some (b :: l', rest)
      rw [ih l' rest (by simpa using hl)]
      rfl

theorem readGatedBytes_false3 (rest : List Nat) :
    readGatedBytes [false, false, false] rest = some ([0, 0, 0], rest) := rfl

theorem readCopyArgs_explicit (off sz : Nat) (tail : List Nat) :
    readCopyArgs 255 (leBytes 4 off ++ (leBytes 3 sz ++ tail)) =
      .ok (leVal (leBytes 4 off), leVal (leBytes 3 sz), tail) := by
  rw [readCopyArgs]
  rw [show [Nat.testBit 255 0, Nat.testBit 255 1, Nat.testBit 255 2, Nat.testBit 255 3] =
      List.replicate 4 true from by decide]
  rw [readGatedBytes_all_true 4 _ _ (leBytes_length 4 off)]
  simp only []
  rw [show [Nat.testBit 255 4, Nat.testBit 255 5, Nat.testBit 255 6] =
      List.replicate 3 true from by decide]
  rw [readGatedBytes_all_true 3 _ _ (leBytes_length 3 sz)]

theorem readCopyArgs_default (off : Nat) (tail : List Nat) :
    readCopyArgs 143 (leBytes 4 off ++ tail) = .ok (leVal (leBytes 4 off), 0, tail) := by
  rw [readCopyArgs]
  rw [show [Nat.testBit 143 0, Nat.testBit 143 1, Nat.testBit 143 2, Nat.testBit 143 3] =
      List.replicate 4 true from by decide]
  rw [readGatedBytes_all_true 4 _ _ (leBytes_length 4 off)]
  simp only []
  rw [show [Nat.testBit 143 4, Nat.testBit 143 5, Nat.testBit 143 6] = [false, false, false]
      from by decide]
  rw [readGatedBytes_false3]
  rfl

theorem pow256_4 : (256 : Nat) ^ 4 = 4294967296 := by norm_num

theorem pow256_3 : (256 : Nat) ^ 3 = 16777216 := by norm_num

theorem opsTarget_cons (base : List Nat) (op : DeltaOp) (ops : List DeltaOp) :
    opsTarget base (op :: ops) = opTarget base op ++ opsTarget base ops := by
  simp [opsTarget]

/-- Running the instruction loop on an encoded legal op sequence appends
exactly the intended target to the accumulator. -/
theorem applyDeltaLoop_encode (base : List Nat) (targetSize : Nat) :
    ∀ (ops : List DeltaOp) (acc : List Nat) (fuel : Nat),
      (∀ op ∈ ops, legalOp base op) →
      acc.length + (opsTarget base ops).length = targetSize →
      ((ops.map encodeOp).flatten).length ≤ fuel →
      applyDeltaLoop base targetSize fuel ((ops.map encodeOp).flatten) acc =
        .ok (acc ++ opsTarget base ops) := by
  intro ops
  induction ops with
  | nil =>
    intro acc fuel _ hlen _
    simp only [opsTarget, List.map_nil, List.flatten_nil, List.length_nil] at hlen ⊢
    cases fuel with
    | zero =>
      rw [show applyDeltaLoop base targetSize 0 [] acc =
        (if acc.length ≠ targetSize then .error .targetSizeMismatch else .ok acc) from rfl]
      rw [if_neg (by omega)]
      simp
    | succ f =>
      rw [show applyDeltaLoop base targetSize (f + 1) [] acc =
        (if acc.length ≠ targetSize then .error .targetSizeMismatch else .ok acc) from rfl]
      rw [if_neg (by omega)]
      simp
  | cons op ops ih =>
    intro acc fuel hlegal hlen hfuel
    have hlegal_op := hlegal op (by simp)
    have hlegal_rest : ∀ o ∈ ops, legalOp base o := fun o ho => hlegal o (by simp [ho])
    rw [opsTarget_cons] at hlen
    rw [show ((op :: ops).map encodeOp).flatten = encodeOp op ++ (ops.map encodeOp).flatten
      from by simp] at hfuel ⊢
    cases op with
    | copy off sz =>
      obtain ⟨hbound, hsz1, hsz3, hoff4⟩ := hlegal_op
      have hchunk : ((base.drop off).take sz).length = sz := by
        simp only [List.length_take, List.length_drop]
        omega
      have htlen : (opTarget base (.copy off sz)).length = sz := by
        simpa [opTarget] using hchunk
      by_cases hdef : sz = 65536
      · subst hdef
        rw [show encodeOp (DeltaOp.copy off 65536) = 143 :: leBytes 4 off from by
          simp [encodeOp]] at hfuel ⊢
        rw [List.cons_append] at hfuel ⊢
        have hflen : (leBytes 4 off).length = 4 := leBytes_length 4 off
        simp only [List.length_cons, List.length_append, hflen] at hfuel
        cases fuel with
        | zero => omega
        | succ f =>
          rw [show applyDeltaLoop base targetSize (f + 1)
              (143 :: (leBytes 4 off ++ (ops.map encodeOp).flatten)) acc =
            (if (143 : Nat).testBit 7 then
              match readCopyArgs 143 (leBytes 4 off ++ (ops.map encodeOp).flatten) with
              | .error e => .error e
              | .ok (copyOffset, copySize0, r) =>
                let copySize := if copySize0 = 0 then 65536 else copySize0
                if copyOffset + copySize > base.length then .error .copyOobBase
                else if acc.length + copySize > targetSize then .error .copyOobTarget
                else applyDeltaLoop base targetSize f r
                  (acc ++ (base.drop copyOffset).take copySize)
            else
              let addSize := 143 % 128
              if addSize = 0 then .error .addZero
              else if addSize > (leBytes 4 off ++ (ops.map encodeOp).flatten).length then
                .error .addOobDelta
              else if acc.length + addSize > targetSize then .error .addOobTarget
              else applyDeltaLoop base targetSize f
                ((leBytes 4 off ++ (ops.map encodeOp).flatten).drop addSize)
                (acc ++ (leBytes 4 off ++ (ops.map encodeOp).flatten).take addSize))
            from rfl]
          rw [if_pos (by decide), readCopyArgs_default]
          simp only []
          rw [leVal_leBytes 4 off (by rw [pow256_4]; omega)]
          rw [if_pos trivial]
          rw [if_neg (show ¬(off + 65536 > base.length) by omega)]
          rw [if_neg (show ¬(acc.length + 65536 > targetSize) by
            simp only [List.length_append, htlen] at hlen
            omega)]
          rw [ih (acc ++ (base.drop off).take 65536) f hlegal_rest
            (by
              simp only [List.length_append, htlen] at hlen ⊢
              simp only [hchunk]
              omega)
            (by omega)]
          rw [List.append_assoc]
          simp [opsTarget_cons, opTarget]
      · rw [show encodeOp (DeltaOp.copy off sz) = 255 :: (leBytes 4 off ++ leBytes 3 sz)
          from by simp [encodeOp, hdef]] at hfuel ⊢
        rw [List.cons_append] at hfuel ⊢
        rw [List.append_assoc] at hfuel ⊢
        have hflen4 : (leBytes 4 off).length = 4 := leBytes_length 4 off
        have hflen3 : (leBytes 3 sz).length = 3 := leBytes_length 3 sz
        simp only [List.length_cons, List.length_append, hflen4, hflen3] at hfuel
        cases fuel with
        | zero => omega
        | succ f =>
          rw [show applyDeltaLoop base targetSize (f + 1)
              (255 :: (leBytes 4 off ++ (leBytes 3 sz ++ (ops.map encodeOp).flatten))) acc =
            (if (255 : Nat).testBit 7 then
              match readCopyArgs 255
                  (leBytes 4 off ++ (leBytes 3 sz ++ (ops.map encodeOp).flatten)) with
              | .error e => .error e
              | .ok (copyOffset, copySize0, r) =>
                let copySize := if copySize0 = 0 then 65536 else copySize0
                if copyOffset + copySize > base.length then .error .copyOobBase
                else if acc.length + copySize > targetSize then .error .copyOobTarget
                else applyDeltaLoop base targetSize f r
                  (acc ++ (base.drop copyOffset).take copySize)
            else
              let addSize := 255 % 128
              if addSize = 0 then .error .addZero
              else if addSize >
                  (leBytes 4 off ++ (leBytes 3 sz ++ (ops.map encodeOp).flatten)).length then
                .error .addOobDelta
              else if acc.length + addSize > targetSize then .error .addOobTarget
              else applyDeltaLoop base targetSize f
                ((leBytes 4 off ++ (leBytes 3 sz ++ (ops.map encodeOp).flatten)).drop addSize)
                (acc ++
                  (leBytes 4 off ++ (leBytes 3 sz ++ (ops.map encodeOp).flatten)).take addSize))
            from rfl]
          rw [if_pos (by decide), readCopyArgs_explicit]
          simp only []
          rw [leVal_leBytes 4 off (by rw [pow256_4]; omega),
            leVal_leBytes 3 sz (by rw [pow256_3]; omega)]
          rw [if_neg (show ¬(sz = 0) by omega)]
          rw [if_neg (show ¬(off + sz > base.length) by omega)]
          rw [if_neg (show ¬(acc.length + sz > targetSize) by
            simp only [List.length_append, htlen] at hlen
            omega)]
          rw [ih (acc ++ (base.drop off).take sz) f hlegal_rest
            (by
              simp only [List.length_append, htlen] at hlen ⊢
              simp only [hchunk]
              omega)
            (by omega)]
          rw [List.append_assoc]
          simp [opsTarget_cons, opTarget]
    | insert bs =>
      obtain ⟨hbs1, hbs127⟩ := hlegal_op
      rw [show encodeOp (DeltaOp.insert bs) = bs.length :: bs from rfl] at hfuel ⊢
      rw [List.cons_append] at hfuel ⊢
      simp only [List.length_cons, List.length_append] at hfuel
      cases fuel with
      | zero => omega
      | succ f =>
        rw [show applyDeltaLoop base targetSize (f + 1)
            (bs.length :: (bs ++ (ops.map encodeOp).flatten)) acc =
          (if (bs.length).testBit 7 then
            match readCopyArgs bs.length (bs ++ (ops.map encodeOp).flatten) with
            | .error e => .error e
            | .ok (copyOffset, copySize0, r) =>
              let copySize := if copySize0 = 0 then 65536 else copySize0
              if copyOffset + copySize > base.length then .error .copyOobBase
              else if acc.length + copySize > targetSize then .error .copyOobTarget
              else applyDeltaLoop base targetSize f r
                (acc ++ (base.drop copyOffset).take copySize)
          else
            let addSize := bs.length % 128
            if addSize = 0 then .error .addZero
            else if addSize > (bs ++ (ops.map encodeOp).flatten).length then .error .addOobDelta
            else if acc.length + addSize > targetSize then .error .addOobTarget
            else applyDeltaLoop base targetSize f
              ((bs ++ (ops.map encodeOp).flatten).drop addSize)
              (acc ++ (bs ++ (ops.map encodeOp).flatten).take addSize))
          from rfl]
        rw [if_neg (by simp [testBit7_false bs.length (by omega)])]
        simp only []
        rw [Nat.mod_eq_of_lt (by omega : bs.length < 128)]
        rw [if_neg (show ¬(bs.length = 0) by omega)]
        rw [if_neg (show ¬(bs.length > (bs ++ (ops.map encodeOp).flatten).length) by
          simp only [List.length_append]
          omega)]
        rw [if_neg (show ¬(acc.length + bs.length > targetSize) by
          simp only [List.length_append, opTarget] at hlen
          omega)]
        rw [List.drop_left, List.take_left]
        rw [ih (acc ++ bs) f hlegal_rest
          (by
            simp only [List.length_append, opTarget] at hlen ⊢
            omega)
          (by omega)]
        rw [List.append_assoc]
        simp [opsTarget_cons, opTarget]

/-- C3: delta reconstruction.  First conjunct: for every (base, ops) pair
whose ops are legal copy/insert instructions over the base (copy bounds
inside the base, inserts inside the delta, copy size `0x10000` expressible
through the zero default, instructions producing exactly the declared
target size — the encoder declares it as the intended target's length),
`applyDelta` returns the intended target.  Second conjunct: a delta that is
a single insert of all of `T` (possible exactly when `1 ≤ len(T) ≤ 127`)
yields `T`. -/
theorem applyDelta_reconstruction :
    (∀ (base : List Nat) (ops : List DeltaOp), (∀ op ∈ ops, legalOp base op) →
      applyDelta base (encodeDelta base ops) = .ok (opsTarget base ops)) ∧
    (∀ (base T : List Nat), 1 ≤ T.length → T.length ≤ 127 →
      applyDelta base (encodeDelta base [DeltaOp.insert T]) = .ok T) := by
  have main : ∀ (base : List Nat) (ops : List DeltaOp), (∀ op ∈ ops, legalOp base op) →
      applyDelta base (encodeDelta base ops) = .ok (opsTarget base ops) := by
    intro base ops hlegal
    rw [applyDelta]
    rw [show encodeDelta base ops = encodeVarint base.length ++
      (encodeVarint (opsTarget base ops).length ++ (ops.map encodeOp).flatten) from by
      rw [encodeDelta, List.append_assoc]]
    rw [readSourceSize_encode]
    simp only []
    rw [if_neg (show ¬(base.length ≠ base.length) by simp)]
    rw [readTargetSize_encode]
    simp only []
    rw [applyDeltaLoop_encode base (opsTarget base ops).length ops [] _ hlegal (by simp)
      (by simp only [List.length_append]; omega)]
    rw [List.nil_append]
  refine ⟨main, fun base T h1 h2 => ?_⟩
  have h := main base [DeltaOp.insert T] (by
    intro op hop
    simp only [List.mem_singleton] at hop
    subst hop
    exact ⟨h1, h2⟩)
  simpa [opsTarget, opTarget] using h

/-- Witness for C3: base `ABC` with a copy of `BC` followed by an insert of
`x`, and the single-insert instance. -/
theorem applyDelta_reconstruction_witness :
    (∀ op ∈ [DeltaOp.copy 1 2, DeltaOp.insert [120]], legalOp [65, 66, 67] op) ∧
    applyDelta [65, 66, 67] (encodeDelta [65, 66, 67] [DeltaOp.copy 1 2, DeltaOp.insert [120]]) =
      .ok (opsTarget [65, 66, 67] [DeltaOp.copy 1 2, DeltaOp.insert [120]]) ∧
    applyDelta [65, 66, 67] (encodeDelta [65, 66, 67] [DeltaOp.insert [104, 105]]) =
      .ok [104, 105] :=
  ⟨by decide,
    applyDelta_reconstruction.1 [65, 66, 67] [DeltaOp.copy 1 2, DeltaOp.insert [120]] (by decide),
    applyDelta_reconstruction.2 [65, 66, 67] [104, 105] (by decide) (by decide)⟩

/-! ## Packfile decoder (`processPackfile`, clone.js lines 427–641) -/

/-- `packData.readUInt32BE(o)`. -/
def readUInt32BE (l : List Nat) (o : Nat) : Nat :=
  l.getD o 0 * 16777216 + l.getD (o + 1) 0 * 65536 + l.getD (o + 2) 0 * 256 + l.getD (o + 3) 0

/-- `buffer.toString('hex')`: lowercase, two digits per byte. -/
def bytesToHex (l : List Nat) : String :=
  bytesStr ((l.map (fun b => [hexDigitAscii (b / 16 % 16), hexDigitAscii (b % 16)])).flatten)

/-- The diagnostics the decoder emits (`console.warn` / `console.error`),
one constructor per message site. -/
inductive LogMsg
  | badSignature
  | badVersion (v : Nat)
  | headerPastEnd
  | noDataRemaining
  | skipOfsDelta
  | inflateError
  | sizeMismatch
  | deltaSizeWarn
  | refDeltaFailed
  | processingError
  | shortfall
  | checksumMismatch
deriving DecidableEq

/-- Decoder loop state: cursor, objects processed, the `writtenObjects`
map (as an assoc list, newest first), the object store, and the log. -/
structure PackState where
  offset : Nat
  processed : Nat
  written : List (String × String)
  store : Store
  log : List LogMsg

/-- Outcome of one loop iteration: `cont` falls through or `continue`s;
`halt` is the `break` of the outer catch (and of line 502). -/
inductive StepRes
  | cont (s : PackState)
  | halt (s : PackState)

/-- The per-object size header loop (lines 459–468): low 4 bits of the
first byte, then 7 bits per continuation byte at shifts 4, 11, …, each
continuation read bounds-checked against `len - 20`.  Fuel-structural; the
pack length always is sufficient fuel, and an `error` is the EOF throw
caught by the outer catch. -/
def readPackSizeLoop (pack : List Nat) : Nat → Nat → Nat → Nat → Nat → Except Unit (Nat × Nat)
  | 0, _, _, _, _ => .error ()
  | fuel + 1, byte, size, shift, offset =>
    if byte.testBit 7 then
      if offset ≥ pack.length - 20 then .error ()
      else
        readPackSizeLoop pack fuel (pack.getD offset 0)
          (size + pack.getD offset 0 % 128 * 2 ^ shift) (shift + 7) (offset + 1)
    else .ok (size, offset)

/-- The OFS_DELTA negative-offset loop (lines 478–485): the value is
`((value + 1) << 7) | (b & 0x7f)` per continuation byte; the first byte is
read unchecked (`undefined` coerces to 0 past the end). -/
def readOfsLoop (pack : List Nat) : Nat → Nat → Nat → Nat → Except Unit (Nat × Nat)
  | 0, _, _, _ => .error ()
  | fuel + 1, negByte, value, offset =>
    if negByte.testBit 7 then
      if offset ≥ pack.length - 20 then .error ()
      else
        readOfsLoop pack fuel (pack.getD offset 0)
          ((value + 1) * 128 + pack.getD offset 0 % 128) (offset + 1)
    else .ok (value, offset)

/-- Result of the incremental `zlib.createInflate` oracle on a compressed
slice: the decompressed bytes together with `inflate.bytesRead` (compressed
bytes consumed), or a decompression error with the bytes consumed up to
it.  zlib itself is external to the repository. -/
inductive InflateRes
  | ok (data : List Nat) (bytesRead : Nat)
  | err (bytesRead : Nat)

/-- The switch's type names (lines 471–475). -/
def packTypeName (t : Nat) : String :=
  if t = 1 then "commit" else if t = 2 then "tree" else if t = 3 then "blob" else "tag"

/-- Lines 502–624 of the decoder loop body, after the object header has
been parsed: the end-of-pack check, the compressed-slice extraction, the
inflate call, and the per-type handling (non-delta write, REF_DELTA
reconstruction with its inner catch, OFS_DELTA skip).  The dead branch at
lines 603–613 (`objectContent === null` after a non-delta fall-through) is
unreachable — every path that leaves `objectContent` null `continue`s
earlier — and is therefore not modelled. -/
def packStepBody (pack : List Nat) (numObjects : Nat) (inflate : List Nat → InflateRes)
    (s : PackState) (objectTypeStr : String) (isDelta : Bool) (baseSha : String)
    (size : Nat) (headerEnd : Nat) : StepRes :=
  let initialOffset := s.offset
  let headerSize := headerEnd - initialOffset
  if headerEnd ≥ pack.length - 20 ∧ s.processed < numObjects - 1 then
    .halt { s with log := .headerPastEnd :: s.log }
  else
    let remainingCompressedData := (pack.drop headerEnd).take (pack.length - 20 - headerEnd)
    if remainingCompressedData.length = 0 ∧ (0 < size ∨ isDelta = true) then
      .cont { s with processed := s.processed + 1, log := .noDataRemaining :: s.log }
    else
      match inflate remainingCompressedData with
      | .err bytesRead =>
        let consumed := if bytesRead = 0 then remainingCompressedData.length else bytesRead
        .cont { s with offset := initialOffset + headerSize + consumed,
                       processed := s.processed + 1, log := .inflateError :: s.log }
      | .ok decompressedData bytesRead =>
        if isDelta = false then
          if decompressedData.length ≠ size then
            .cont { s with offset := initialOffset + headerSize + bytesRead,
                           processed := s.processed + 1, log := .sizeMismatch :: s.log }
          else
            .cont { s with offset := initialOffset + headerSize + bytesRead,
                           processed := s.processed + 1,
                           written := ((writeGitObject objectTypeStr decompressedData s.store).1,
                             objectTypeStr) :: s.written,
                           store := (writeGitObject objectTypeStr decompressedData s.store).2.1 }
        else if objectTypeStr = "REF_DELTA" then
          match readObject baseSha s.store with
          | .notFound =>
            .cont { s with offset := initialOffset + headerSize + bytesRead,
                           processed := s.processed + 1, log := .refDeltaFailed :: s.log }
          | .err =>
            .cont { s with offset := initialOffset + headerSize + bytesRead,
                           processed := s.processed + 1, log := .refDeltaFailed :: s.log }
          | .ok finalObjectType baseContent =>
            match applyDelta baseContent decompressedData with
            | .error _ =>
              .cont { s with offset := initialOffset + headerSize + bytesRead,
                             processed := s.processed + 1, log := .refDeltaFailed :: s.log }
            | .ok objectContent =>
              .cont { s with offset := initialOffset + headerSize + bytesRead,
                             processed := s.processed + 1,
                             written := ((writeGitObject finalObjectType objectContent s.store).1,
                               finalObjectType) :: s.written,
                             store := (writeGitObject finalObjectType objectContent s.store).2.1,
                             log := if objectContent.length ≠ size
                              then .deltaSizeWarn :: s.log else s.log }
        else
          .cont { s with offset := initialOffset + headerSize + bytesRead,
                         processed := s.processed + 1, log := .skipOfsDelta :: s.log }

/-- One iteration of the decoder loop (lines 449–625): parse the object
header byte, the size varint and the per-type extras, then run the body.
An `error` from a header reader is the throw caught at line 618 (`break`
without advancing `objectsProcessed`). -/
def packStep (pack : List Nat) (numObjects : Nat) (inflate : List Nat → InflateRes)
    (s : PackState) : StepRes :=
  let byte := pack.getD s.offset 0
  let type := byte / 16 % 8
  match readPackSizeLoop pack pack.length byte (byte % 16) 4 (s.offset + 1) with
  | .error _ => .halt { s with log := .processingError :: s.log }
  | .ok (size, o1) =>
    if type = 6 then
      match readOfsLoop pack pack.length (pack.getD o1 0) (pack.getD o1 0 % 128) (o1 + 1) with
      | .error _ => .halt { s with log := .processingError :: s.log }
      | .ok (_, o2) =>
        packStepBody pack numObjects inflate
          { s with log := .skipOfsDelta :: s.log } "OFS_DELTA" true "" size o2
    else if type = 7 then
      if o1 + 20 > pack.length - 20 then .halt { s with log := .processingError :: s.log }
      else
        packStepBody pack numObjects inflate s "REF_DELTA" true
          (bytesToHex ((pack.drop o1).take 20)) size (o1 + 20)
    else if 1 ≤ type ∧ type ≤ 4 then
      packStepBody pack numObjects inflate s (packTypeName type) false "" size o1
    else .halt { s with log := .processingError :: s.log }

/-- The decoder loop (lines 449–625): run while objects remain and the
cursor has not reached the trailer.  `objectsProcessed` increments on every
iteration, so `numObjects` always is sufficient fuel. -/
def packLoop (pack : List Nat) (numObjects : Nat) (inflate : List Nat → InflateRes) :
    Nat → PackState → PackState
  | 0, s => s
  | fuel + 1, s =>
    if s.processed < numObjects ∧ s.offset < pack.length - 20 then
      match packStep pack numObjects inflate s with
      | .cont s2 => packLoop pack numObjects inflate fuel s2
      | .halt s2 => s2
    else s

/-- The signature and version warnings of lines 431–438. -/
def packHeaderWarnings (packData : List Nat) : List LogMsg :=
  let log0 : List LogMsg :=
    if packData.take 4 ≠ [80, 65, 67, 75] then [.badSignature] else []
  if readUInt32BE packData 4 ≠ 2 then .badVersion (readUInt32BE packData 4) :: log0 else log0

/-- What `processPackfile` produces on its non-throwing path. -/
structure PackResult where
  written : List (String × String)
  store : Store
  log : List LogMsg

/-- The only fatal (uncaught) failure of `processPackfile`: line 428's
too-short check. -/
inductive PackFatal
  | tooShort
deriving DecidableEq

/-- `processPackfile(packData)` (clone.js lines 427–641): length check,
header warnings, the decode loop, the shortfall warning, and the trailing
checksum comparison — a warning only, never a failure. -/
def processPackfile (packData : List Nat) (inflate : List Nat → InflateRes) (σ : Store) :
    Except PackFatal PackResult :=
  if packData.length < 12 + 20 then .error .tooShort
  else
    let numObjects := readUInt32BE packData 8
    let final := packLoop packData numObjects inflate numObjects
      { offset := 12, processed := 0, written := [], store := σ,
        log := packHeaderWarnings packData }
    let log2 := if final.processed < numObjects then .shortfall :: final.log else final.log
    let calculated := sha1Hex (packData.take (packData.length - 20))
    let expected := bytesToHex (packData.drop (packData.length - 20))
    .ok { written := final.written, store := final.store,
          log := if calculated ≠ expected then .checksumMismatch :: log2 else log2 }

/-- C5: the trailing-checksum comparison is lenient.  On any pack long
enough to pass the initial length check, `processPackfile` returns `.ok`
with exactly the objects written by the decode loop — it never fails on
the trailer — and when the SHA-1 over all pack bytes except the final 20
differs from those final 20 bytes, the mismatch is merely logged as a
warning. -/
theorem processPackfile_checksum_lenient (packData : List Nat)
    (inflate : List Nat → InflateRes) (σ : Store) (h : 32 ≤ packData.length) :
    ∃ r : PackResult,
      processPackfile packData inflate σ = .ok r ∧
      r.written = (packLoop packData (readUInt32BE packData 8) inflate
        (readUInt32BE packData 8)
        { offset := 12, processed := 0, written := [], store := σ,
          log := packHeaderWarnings packData }).written ∧
      (sha1Hex (packData.take (packData.length - 20)) ≠
          bytesToHex (packData.drop (packData.length - 20)) →
        .checksumMismatch ∈ r.log) := by
  rw [processPackfile, if_neg (by omega)]
  refine ⟨_, rfl, rfl, fun hmis => ?_⟩
  simp only [if_pos hmis]
  exact List.mem_cons_self _ _

/-- Witness for C5 over a 32-byte all-zero pack. -/
theorem processPackfile_checksum_lenient_witness :
    32 ≤ (List.replicate 32 0).length ∧
    ∃ r : PackResult,
      processPackfile (List.replicate 32 0) (fun _ => .err 0) (fun _ => none) = .ok r ∧
      r.written = (packLoop (List.replicate 32 0) (readUInt32BE (List.replicate 32 0) 8)
        (fun _ => .err 0) (readUInt32BE (List.replicate 32 0) 8)
        { offset := 12, processed := 0, written := [], store := fun _ => none,
          log := packHeaderWarnings (List.replicate 32 0) }).written ∧
      (sha1Hex ((List.replicate 32 0).take ((List.replicate 32 0).length - 20)) ≠
          bytesToHex ((List.replicate 32 0).drop ((List.replicate 32 0).length - 20)) →
        .checksumMismatch ∈ r.log) :=
  ⟨by decide,
    processPackfile_checksum_lenient (List.replicate 32 0) (fun _ => .err 0)
      (fun _ => none) (by decide)⟩

theorem readPackSizeLoop_mono (pack : List Nat) :
    ∀ fuel byte size shift offset sz o1,
      readPackSizeLoop pack fuel byte size shift offset = .ok (sz, o1) → offset ≤ o1 := by
  intro fuel
  induction fuel with
  | zero =>
    intro byte size shift offset sz o1 h
    simp [readPackSizeLoop] at h
  | succ fuel ih =>
    intro byte size shift offset sz o1 h
    rw [readPackSizeLoop] at h
    by_cases hb : byte.testBit 7
    · rw [if_pos hb] at h
      by_cases hoff : offset ≥ pack.length - 20
      · rw [if_pos hoff] at h
        simp at h
      · rw [if_neg hoff] at h
        have := ih _ _ _ _ _ _ h
        omega
    · rw [if_neg hb] at h
      simp only [Except.ok.injEq, Prod.mk.injEq] at h
      omega

/-- C2: REF_DELTA handling during pack decode.  The hypotheses fix one
loop iteration whose object header at the cursor is a REF_DELTA — type-7
header byte, size varint `sz` ending at `o1`, 20-byte base identity, all
well inside the pack — and whose compressed body inflates to the delta `d`
consuming `n` compressed bytes.  Conclusion (a): when the base identity is
absent from the object store at the moment of resolution, the object is
skipped with an error and decoding continues with the next object —
nothing is written and the store is untouched.  Conclusion (b): when the
base is present and the delta applies, the loop likewise continues, with
the reconstructed object written under the base object's kind. -/
theorem packLoop_refDelta (pack : List Nat) (numObjects : Nat)
    (inflate : List Nat → InflateRes) (s : PackState) (fuel sz o1 n : Nat)
    (d : List Nat)
    (hproc : s.processed < numObjects)
    (hoff : s.offset < pack.length - 20)
    (htype : pack.getD s.offset 0 / 16 % 8 = 7)
    (hsize : readPackSizeLoop pack pack.length (pack.getD s.offset 0)
      (pack.getD s.offset 0 % 16) 4 (s.offset + 1) = .ok (sz, o1))
    (hbound : o1 + 20 < pack.length - 20)
    (hinf : inflate ((pack.drop (o1 + 20)).take (pack.length - 20 - (o1 + 20))) = .ok d n) :
    (readObject (bytesToHex ((pack.drop o1).take 20)) s.store = .notFound →
      packLoop pack numObjects inflate (fuel + 1) s =
        packLoop pack numObjects inflate fuel
          { s with offset := o1 + 20 + n, processed := s.processed + 1,
                   log := .refDeltaFailed :: s.log }) ∧
    (∀ (k : String) (p t : List Nat),
      readObject (bytesToHex ((pack.drop o1).take 20)) s.store = .ok k p →
      applyDelta p d = .ok t →
      packLoop pack numObjects inflate (fuel + 1) s =
        packLoop pack numObjects inflate fuel
          { s with offset := o1 + 20 + n, processed := s.processed + 1,
                   written := ((writeGitObject k t s.store).1, k) :: s.written,
                   store := (writeGitObject k t s.store).2.1,
                   log := if t.length ≠ sz then .deltaSizeWarn :: s.log else s.log }) := by
  have hmono := readPackSizeLoop_mono pack _ _ _ _ _ _ _ hsize
  have hoffeq : s.offset + (o1 + 20 - s.offset) + n = o1 + 20 + n := by omega
  have hremlen : ((pack.drop (o1 + 20)).take (pack.length - 20 - (o1 + 20))).length =
      pack.length - 20 - (o1 + 20) := by
    simp only [List.length_take, List.length_drop]
    omega
  have hstep : packStep pack numObjects inflate s =
      packStepBody pack numObjects inflate s "REF_DELTA" true
        (bytesToHex ((pack.drop o1).take 20)) sz (o1 + 20) := by
    rw [packStep]
    simp only [htype, hsize]
    rw [if_pos trivial]
    rw [if_neg (by omega : ¬o1 + 20 > pack.length - 20)]
    rw [if_neg (by omega : ¬(7 : Nat) = 6)]
  constructor
  · intro hro
    have hbodyeq : packStepBody pack numObjects inflate s "REF_DELTA" true
        (bytesToHex ((pack.drop o1).take 20)) sz (o1 + 20) =
        .cont { s with offset := o1 + 20 + n, processed := s.processed + 1,
                       log := .refDeltaFailed :: s.log } := by
      simp only [packStepBody]
      rw [if_neg (by rintro ⟨h1, _⟩; omega)]
      rw [if_neg (by rintro ⟨h1, _⟩; rw [hremlen] at h1; omega)]
      rw [hinf]
      simp only []
      rw [if_pos trivial, hro]
      simp only []
      rw [hoffeq]
      rw [if_neg (show ¬(true = false) by decide)]
    rw [packLoop, if_pos ⟨hproc, hoff⟩, hstep, hbodyeq]
  · intro k p t hro happly
    have hbodyeq : packStepBody pack numObjects inflate s "REF_DELTA" true
        (bytesToHex ((pack.drop o1).take 20)) sz (o1 + 20) =
        .cont { s with offset := o1 + 20 + n, processed := s.processed + 1,
                       written := ((writeGitObject k t s.store).1, k) :: s.written,
                       store := (writeGitObject k t s.store).2.1,
                       log := if t.length ≠ sz then .deltaSizeWarn :: s.log else s.log } := by
      simp only [packStepBody]
      rw [if_neg (by rintro ⟨h1, _⟩; omega)]
      rw [if_neg (by rintro ⟨h1, _⟩; rw [hremlen] at h1; omega)]
      rw [hinf]
      simp only []
      rw [if_pos trivial, hro]
      simp only []
      rw [happly]
      simp only []
      rw [hoffeq]
      rw [if_neg (show ¬(true = false) by decide)]
    rw [packLoop, if_pos ⟨hproc, hoff⟩, hstep, hbodyeq]

/-- Witness for C2 (missing-base branch): a 55-byte pack whose single
object is a REF_DELTA over an empty store; the step skips it with an error
and the loop proceeds. -/
theorem packLoop_refDelta_witness :
    packLoop
      ([80, 65, 67, 75, 0, 0, 0, 2, 0, 0, 0, 1, 115] ++ List.replicate 20 0 ++ [1, 2] ++
        List.replicate 20 0) 1 (fun _ => .ok [1] 2) 1
      { offset := 12, processed := 0, written := [], store := fun _ => none, log := [] } =
    packLoop
      ([80, 65, 67, 75, 0, 0, 0, 2, 0, 0, 0, 1, 115] ++ List.replicate 20 0 ++ [1, 2] ++
        List.replicate 20 0) 1 (fun _ => .ok [1] 2) 0
      { offset := 13 + 20 + 2, processed := 0 + 1, written := [], store := fun _ => none,
        log := [LogMsg.refDeltaFailed] } :=
  (packLoop_refDelta
    ([80, 65, 67, 75, 0, 0, 0, 2, 0, 0, 0, 1, 115] ++ List.replicate 20 0 ++ [1, 2] ++
      List.replicate 20 0) 1 (fun _ => .ok [1] 2)
    { offset := 12, processed := 0, written := [], store := fun _ => none, log := [] }
    0 3 13 2 [1] (by decide) (by decide) (by decide) (by decide) (by decide) rfl).1 rfl

/-! ## write-tree entry ordering (`writeTreeCommand`, writeTree.js lines 58–81) -/

/-- Strict lexicographic order on byte/key lists. -/
def listLtNat : List Nat → List Nat → Bool
  | [], [] => false
  | [], _ :: _ => true
  | _ :: _, [] => false
  | a :: as, b :: bs => if a < b then true else if b < a then false else listLtNat as bs

theorem listLtNat_asymm : ∀ a b, listLtNat a b = true → listLtNat b a = false := by
  intro a
  induction a with
  | nil =>
    intro b h
    cases b with
    | nil => simp [listLtNat] at h
    | cons y ys => simp [listLtNat]
  | cons x xs ih =>
    intro b h
    cases b with
    | nil => simp [listLtNat] at h
    | cons y ys =>
      simp only [listLtNat] at h ⊢
      by_cases h1 : x < y
      · rw [if_neg (by omega : ¬y < x), if_pos h1]
      · rw [if_neg h1] at h
        by_cases h2 : y < x
        · rw [if_pos h2] at h
          exact absurd h (by simp)
        · rw [if_neg h2] at h
          have hxy : x = y := by omega
          subst hxy
          rw [if_neg (by omega : ¬x < x), if_neg (by omega : ¬x < x)]
          exact ih ys h

theorem listLtNat_trans : ∀ a b c, listLtNat a b = true → listLtNat b c = true →
    listLtNat a c = true := by
  intro a
  induction a with
  | nil =>
    intro b c hab hbc
    cases b with
    | nil => simp [listLtNat] at hab
    | cons y ys =>
      cases c with
      | nil => simp [listLtNat] at hbc
      | cons z zs => simp [listLtNat]
  | cons x xs ih =>
    intro b c hab hbc
    cases b with
    | nil => simp [listLtNat] at hab
    | cons y ys =>
      cases c with
      | nil => simp [listLtNat] at hbc
      | cons z zs =>
        simp only [listLtNat] at hab hbc ⊢
        by_cases h1 : x < y
        · by_cases h2 : y < z
          · rw [if_pos (by omega : x < z)]
          · rw [if_neg h2] at hbc
            by_cases h3 : z < y
            · rw [if_pos h3] at hbc
              exact absurd hbc (by simp)
            · have hyz : y = z := by omega
              subst hyz
              rw [if_pos h1]
        · rw [if_neg h1] at hab
          by_cases h4 : y < x
          · rw [if_pos h4] at hab
            exact absurd hab (by simp)
          · have hxy : x = y := by omega
            subst hxy
            rw [if_neg (by omega : ¬x < x)] at hab
            by_cases h2 : x < z
            · rw [if_pos h2]
            · rw [if_neg h2] at hbc
              by_cases h3 : z < x
              · rw [if_pos h3] at hbc
                exact absurd hbc (by simp)
              · have hxz : x = z := by omega
                subst hxz
                rw [if_neg (by omega : ¬x < x)] at hbc
                rw [if_neg (by omega : ¬x < x), if_neg (by omega : ¬x < x)]
                exact ih ys zs hab hbc

theorem listLtNat_antisymm : ∀ a b, listLtNat a b = false → listLtNat b a = false →
    a = b := by
  intro a
  induction a with
  | nil =>
    intro b hab _
    cases b with
    | nil => rfl
    | cons y ys => simp [listLtNat] at hab
  | cons x xs ih =>
    intro b hab hba
    cases b with
    | nil => simp [listLtNat] at hba
    | cons y ys =>
      simp only [listLtNat] at hab hba
      by_cases h1 : x < y
      · rw [if_pos h1] at hab
        exact absurd hab (by simp)
      · by_cases h2 : y < x
        · rw [if_pos h2] at hba
          exact absurd hba (by simp)
        · have hxy : x = y := by omega
          subst hxy
          rw [if_neg (by omega : ¬x < x), if_neg (by omega : ¬x < x)] at hab hba
          rw [ih ys hab hba]

/-- Modelled from the ICU root/default-locale collation that Node's
`String.prototype.localeCompare` (no arguments, full-ICU build) applies to
the ASCII names the repository sorts: letters compare case-insensitively at
primary strength, and for the same base letter lowercase precedes
uppercase.  `localeCompare` is runtime library behavior, external to src/;
the source's own comment (`writeTree.js` lines 60–62) records that it
"usually" — not always — coincides with Git's byte-wise order. -/
def localeCharKey (c : Char) : Nat :=
  c.toLower.toNat * 2 + (if c.isLower then 0 else 1)

/-- Collation key of a name. -/
def localeKey (s : String) : List Nat := s.toList.map localeCharKey

/-- The modelled `a.localeCompare(b)`: −1, 0 or 1 by collation key. -/
def localeCompareModel (a b : String) : Int :=
  if listLtNat (localeKey a) (localeKey b) then -1
  else if listLtNat (localeKey b) (localeKey a) then 1
  else 0

/-- One entry of `entriesData` (`writeTree.js` lines 51–55). -/
structure TreeEntry where
  mode : String
  name : String
  hashBytes : List Nat
deriving DecidableEq

/-- The comparator the source passes to `Array.prototype.sort`
(lines 59–64): `a.name.localeCompare(b.name)` non-positive. -/
def treeEntryLe (a b : TreeEntry) : Prop := localeCompareModel a.name b.name ≤ 0

instance : DecidableRel treeEntryLe := fun a b =>
  inferInstanceAs (Decidable (localeCompareModel a.name b.name ≤ 0))

/-- `entriesData.sort(comparator)`: ES2019 `Array.prototype.sort` is a
stable comparator sort, modelled as insertion sort. -/
def writeTreeSortedEntries (entries : List TreeEntry) : List TreeEntry :=
  List.insertionSort treeEntryLe entries

/-- Lines 68–74: each entry serializes as `<mode> <name>\0<hash bytes>`,
concatenated. -/
def serializeTreeEntries (entries : List TreeEntry) : List Nat :=
  (entries.map (fun e => strBytes e.mode ++ 32 :: (strBytes e.name ++ 0 :: e.hashBytes))).flatten

/-- Lines 77–81: the framed tree object (`"tree <len>\0" ++ content`) that
`writeTreeCommand` hashes and stores. -/
def writeTreeObjectBytes (entries : List TreeEntry) : List Nat :=
  frame "tree" (serializeTreeEntries (writeTreeSortedEntries entries))

/-- Byte-wise (Git) non-strict order on names. -/
def bytewiseLe (a b : String) : Bool := !listLtNat (strBytes b) (strBytes a)

/-- Boolean check that a name list is byte-wise sorted. -/
def namesSortedBytewise : List String → Bool
  | [] => true
  | [_] => true
  | a :: b :: r => bytewiseLe a b && namesSortedBytewise (b :: r)

/-- Counterexample to C7 as stated, at the directory containing `B` then
`a`: the source sorts with `localeCompare`, which orders `a` before `B`
(case-insensitive primary strength), while byte-wise order puts `B` (0x42)
before `a` (0x61) — so the produced tree's entries are not ordered by name
bytewise. -/
theorem writeTree_bytewise_ordering_counterexample :
    ¬ namesSortedBytewise ((writeTreeSortedEntries
        [⟨"100644", "B", List.replicate 20 0⟩, ⟨"100644", "a", List.replicate 20 0⟩]).map
        (fun e => e.name)) = true := by decide

theorem treeEntryLe_iff (a b : TreeEntry) :
    treeEntryLe a b ↔ listLtNat (localeKey b.name) (localeKey a.name) = false := by
  rw [treeEntryLe, localeCompareModel]
  by_cases h1 : listLtNat (localeKey a.name) (localeKey b.name) = true
  · rw [if_pos h1]
    constructor
    · intro _
      exact listLtNat_asymm _ _ h1
    · intro _
      omega
  · rw [if_neg h1]
    by_cases h2 : listLtNat (localeKey b.name) (localeKey a.name) = true
    · rw [if_pos h2]
      constructor
      · intro hc
        omega
      · intro hc
        rw [hc] at h2
        exact absurd h2 (by simp)
    · rw [if_neg h2]
      constructor
      · intro _
        simpa using h2
      · intro _
        omega

theorem localeCompareModel_lt_iff (a b : TreeEntry) :
    localeCompareModel a.name b.name < 0 ↔
      listLtNat (localeKey a.name) (localeKey b.name) = true := by
  rw [localeCompareModel]
  by_cases h1 : listLtNat (localeKey a.name) (localeKey b.name) = true
  · rw [if_pos h1]
    simp [h1]
  · rw [if_neg h1]
    by_cases h2 : listLtNat (localeKey b.name) (localeKey a.name) = true
    · rw [if_pos h2]
      constructor
      · intro hc
        omega
      · intro hc
        exact absurd hc h1
    · rw [if_neg h2]
      constructor
      · intro hc
        omega
      · intro hc
        exact absurd hc h1

theorem localeCompareModel_zero_symm (a b : TreeEntry)
    (h : localeCompareModel a.name b.name ≠ 0) : localeCompareModel b.name a.name ≠ 0 := by
  rw [localeCompareModel] at h ⊢
  by_cases h1 : listLtNat (localeKey a.name) (localeKey b.name) = true
  · have h2 := listLtNat_asymm _ _ h1
    rw [if_neg (by simp [h2]), if_pos h1]
    omega
  · by_cases h2 : listLtNat (localeKey b.name) (localeKey a.name) = true
    · rw [if_pos h2]
      omega
    · rw [if_neg h1, if_neg h2] at h
      exact absurd rfl h

/-- C7, amended: the tree object produced by write-tree lists its entries
sorted by the `localeCompare` comparator, independently of the order in
which the directory's entries were created or enumerated (whenever the
comparator separates the names); on the spec's S3 scenario — `b` created
before `a` — this coincides with byte-wise order, and the serialized tree
lists `a` before `b`. -/
theorem writeTree_entry_ordering :
    (∀ l₁ l₂ : List TreeEntry, l₁.Perm l₂ →
      l₂.Pairwise (fun x y => localeCompareModel x.name y.name ≠ 0) →
      writeTreeSortedEntries l₁ = writeTreeSortedEntries l₂) ∧
    (∀ l : List TreeEntry, List.Sorted treeEntryLe (writeTreeSortedEntries l)) ∧
    writeTreeObjectBytes
        [⟨"100644", "b", List.replicate 20 0⟩, ⟨"100644", "a", List.replicate 20 0⟩] =
      frame "tree" (serializeTreeEntries
        [⟨"100644", "a", List.replicate 20 0⟩, ⟨"100644", "b", List.replicate 20 0⟩]) := by
  haveI htrans : IsTrans TreeEntry treeEntryLe := ⟨by
    intro a b c hab hbc
    rw [treeEntryLe_iff] at hab hbc ⊢
    by_cases hca : listLtNat (localeKey c.name) (localeKey a.name) = true
    · by_cases hcb : listLtNat (localeKey c.name) (localeKey b.name) = true
      · rw [hcb] at hbc
        exact absurd hbc (by simp)
      · by_cases hbc2 : listLtNat (localeKey b.name) (localeKey c.name) = true
        · have := listLtNat_trans _ _ _ hbc2 hca
          rw [this] at hab
          exact absurd hab (by simp)
        · have hbceq : localeKey b.name = localeKey c.name :=
            listLtNat_antisymm _ _ (by simpa using hbc2) (by simpa using hcb)
          rw [← hbceq] at hca
          rw [hca] at hab
          exact absurd hab (by simp)
    · simpa using hca⟩
  haveI htotal : IsTotal TreeEntry treeEntryLe := ⟨by
    intro a b
    rw [treeEntryLe_iff, treeEntryLe_iff]
    by_cases h : listLtNat (localeKey b.name) (localeKey a.name) = true
    · right
      exact listLtNat_asymm _ _ h
    · left
      simpa using h⟩
  refine ⟨?_, fun l => List.sorted_insertionSort treeEntryLe l, by decide⟩
  intro l₁ l₂ hperm hpair
  have hs₁ : List.Sorted treeEntryLe (writeTreeSortedEntries l₁) :=
    List.sorted_insertionSort treeEntryLe l₁
  have hs₂ : List.Sorted treeEntryLe (writeTreeSortedEntries l₂) :=
    List.sorted_insertionSort treeEntryLe l₂
  have hp₁ : (writeTreeSortedEntries l₁).Perm l₂ :=
    (List.perm_insertionSort treeEntryLe l₁).trans hperm
  have hp₂ : (writeTreeSortedEntries l₂).Perm l₂ :=
    List.perm_insertionSort treeEntryLe l₂
  have hsep₁ : (writeTreeSortedEntries l₁).Pairwise
      (fun x y => localeCompareModel x.name y.name ≠ 0) :=
    (hp₁.pairwise_iff (fun h => localeCompareModel_zero_symm _ _ h)).mpr hpair
  have hsep₂ : (writeTreeSortedEntries l₂).Pairwise
      (fun x y => localeCompareModel x.name y.name ≠ 0) :=
    (hp₂.pairwise_iff (fun h => localeCompareModel_zero_symm _ _ h)).mpr hpair
  have hlt : ∀ (l : List TreeEntry), List.Sorted treeEntryLe l →
      l.Pairwise (fun x y => localeCompareModel x.name y.name ≠ 0) →
      l.Pairwise (fun x y => localeCompareModel x.name y.name < 0) := by
    intro l hs hp
    have := List.Pairwise.and hs hp
    exact this.imp (by
      rintro a b ⟨h1, h2⟩
      rw [treeEntryLe] at h1
      omega)
  haveI : IsAntisymm TreeEntry (fun x y => localeCompareModel x.name y.name < 0) := ⟨by
    intro a b hab hba
    rw [localeCompareModel_lt_iff] at hab hba
    have := listLtNat_asymm _ _ hab
    rw [this] at hba
    exact absurd hba (by simp)⟩
  exact List.eq_of_perm_of_sorted (hp₁.trans hp₂.symm)
    (hlt _ hs₁ hsep₁) (hlt _ hs₂ hsep₂)

/-- Witness for the amended C7 at the S3 scenario: the directory holding
`b` then `a` sorts identically to the one holding `a` then `b`. -/
theorem writeTree_entry_ordering_witness :
    ([⟨"100644", "b", List.replicate 20 0⟩, ⟨"100644", "a", List.replicate 20 0⟩] :
        List TreeEntry).Perm
      [⟨"100644", "a", List.replicate 20 0⟩, ⟨"100644", "b", List.replicate 20 0⟩] ∧
    writeTreeSortedEntries
        [⟨"100644", "b", List.replicate 20 0⟩, ⟨"100644", "a", List.replicate 20 0⟩] =
      writeTreeSortedEntries
        [⟨"100644", "a", List.replicate 20 0⟩, ⟨"100644", "b", List.replicate 20 0⟩] :=
  ⟨by decide,
    writeTree_entry_ordering.1 _ _ (by decide) (by decide)⟩

/-! ## Clone orchestrator (`cloneCommand`, clone.js lines 342–425) -/

/-- Byte-level string helpers, faithful to the JS string operations on the
ASCII data the clone pipeline handles (and structurally recursive, so they
evaluate inside the kernel). -/
def startsWithBytes : List Nat → List Nat → Bool
  | _, [] => true
  | [], _ :: _ => false
  | a :: as, b :: bs => a == b && startsWithBytes as bs

/-- `s.startsWith(pre)`. -/
def strStartsWith (s pre : String) : Bool := startsWithBytes (strBytes s) (strBytes pre)

/-- `s.substring(n)` / `s.slice(n)`. -/
def strDrop (s : String) (n : Nat) : String := bytesStr ((strBytes s).drop n)

/-- JS whitespace for `trim` (ASCII range). -/
def isJsSpace (b : Nat) : Bool := b = 32 || b = 9 || b = 10 || b = 13 || b = 11 || b = 12

/-- `s.trim()`. -/
def strTrim (s : String) : String :=
  bytesStr ((((strBytes s).dropWhile isJsSpace).reverse.dropWhile isJsSpace).reverse)

/-- `/^[0-9a-f]{40}$/.test(s)`. -/
def isHex40Bytes (l : List Nat) : Bool :=
  l.length == 40 && l.all (fun b => (48 ≤ b && b ≤ 57) || (97 ≤ b && b ≤ 102))

/-- `/^[0-9a-f]{40}$/.test(s)` on a string. -/
def isHex40 (s : String) : Bool := isHex40Bytes (strBytes s)

/-- Split a byte list on a separator byte (`String.prototype.split` on one
character). -/
def splitOnByte (c : Nat) : List Nat → List (List Nat)
  | [] => [[]]
  | b :: r =>
    if b = c then [] :: splitOnByte c r
    else
      match splitOnByte c r with
      | f :: rest => (b :: f) :: rest
      | [] => [[b]]

/-- Join byte lists with a separator byte. -/
def joinBytes (c : Nat) : List (List Nat) → List Nat
  | [] => []
  | [x] => x
  | x :: y :: r => x ++ c :: joinBytes c (y :: r)

/-- `path.basename(pathname)`, on the slash-separated ASCII paths the clone
handles (the `path` module's further normalization — trailing separators,
drive letters — is not exercised by the pipeline). -/
def basenameOf (pathname : String) : String :=
  bytesStr ((splitOnByte 47 (strBytes pathname)).getLastD [])

/-- `.replace(/\.git$/, "")`. -/
def stripDotGit (s : String) : String :=
  if startsWithBytes (strBytes s).reverse (strBytes ".git").reverse then
    bytesStr ((strBytes s).take ((strBytes s).length - 4))
  else s

/-- `path.dirname(p)`, for paths containing a separator (the only ones the
pipeline feeds it). -/
def dirnameOf (p : String) : String :=
  bytesStr (joinBytes 47 ((splitOnByte 47 (strBytes p)).dropLast))

/-- `path.join(a, b)` on the pipeline's simple relative segments. -/
def pathJoin (a b : String) : String := a ++ "/" ++ b

/-- `process.chdir` target resolution: absolute paths replace the cwd,
relative ones are resolved against it. -/
def resolvePath (cwd p : String) : String :=
  if strStartsWith p "/" then p else cwd ++ "/" ++ p

/-- Effects of the clone pipeline observable to the claims. -/
inductive CloneEvent
  | netGet
  | netPost
  | mkdir (path : String)
  | chdir (path : String)
  | writeTextFile (path : String) (content : String)
  | writeFile (path : String) (content : List Nat)
  | chmod (path : String) (mode : Nat)
deriving DecidableEq

/-- The mutable world of the clone: directory existence (keyed by resolved
path; object files live in `store`), the current working directory, and
the object store.  Plain file writes are recorded as events only — nothing
in the pipeline re-checks their existence. -/
structure World where
  fsExists : String → Bool
  cwd : String
  store : Store

/-- `fs.mkdirSync`. -/
def World.mkdir (w : World) (key : String) : World :=
  { w with fsExists := fun p => if p = key then true else w.fsExists p }

/-- `new URL(repoUrl)` validity plus the fields `cloneCommand` reads, and
the optional explicit target directory. -/
structure CloneArgs where
  urlValid : Bool
  urlPathname : String
  targetDirArg : Option String

/-- Lines 345–348: explicit target, or basename of the URL path minus a
trailing `.git`. -/
def resolvedTargetDir (args : CloneArgs) : String :=
  match args.targetDirArg with
  | some d => d
  | none => stripDotGit (basenameOf args.urlPathname)

/-- The fatal failures of `cloneCommand` (each a distinct `throw`). -/
inductive CloneErr
  | invalidUrl
  | targetExists
  | discoverFailed
  | noHead
  | noShaForBranch
  | packRequestFailed
  | packTooShort
deriving DecidableEq

/-- The throws inside the checkout walk (all swallowed by the checkout
`catch` in `cloneCommand`, lines 413–416). -/
inductive CheckoutErr
  | commitMissing
  | notCommit
  | noTreeSha
  | notTree
  | readFailed
  | outOfFuel
deriving DecidableEq

/-- JS object lookup on the ref map the `discoverRefs` oracle provides
(first match in the oracle's final association list). -/
def lookupRef (refs : List (String × String)) (name : String) : Option String :=
  (refs.find? (fun p => p.1 = name)).map (fun p => p.2)

/-- `initCommand` (`createGitDirectory`, `src/unnamed/part_002` lines
54–61, matching spec §4.C9 step 3): create `.git`, `.git/objects`,
`.git/refs`, then write `HEAD` as `ref: refs/heads/main\n`. -/
def initCommand (w : World) : World × List CloneEvent :=
  let p1 := resolvePath w.cwd ".git"
  let p2 := resolvePath w.cwd ".git/objects"
  let p3 := resolvePath w.cwd ".git/refs"
  (((w.mkdir p1).mkdir p2).mkdir p3,
    [.mkdir p1, .mkdir p2, .mkdir p3,
     .writeTextFile (pathJoin p1 "HEAD") "ref: refs/heads/main\n"])

/-- The `^tree ([0-9a-f]{40})$` multiline match of `checkout` (clone.js
line 653): the first commit line that is exactly `tree ` followed by 40
lowercase hex characters. -/
def findTreeSha (commitContent : List Nat) : Option String :=
  (splitOnByte 10 commitContent).findSome? (fun line =>
    if startsWithBytes line (strBytes "tree ") && isHex40Bytes (line.drop 5) then
      some (bytesStr (line.drop 5))
    else none)

/-- The tree-entry scan of `checkoutTree` (clone.js lines 680–717): mode up
to the space, name up to the null, 20 raw hash bytes; a malformed remainder
ends the loop (the `break`s).  Fuel-structural; the byte count is always
sufficient fuel. -/
def parseTreeEntries : Nat → List Nat → List (String × String × String)
  | 0, _ => []
  | fuel + 1, bytes =>
    let mode := bytes.takeWhile (fun b => b != 32)
    match bytes.dropWhile (fun b => b != 32) with
    | [] => []
    | _ :: afterSpace =>
      let name := afterSpace.takeWhile (fun b => b != 0)
      match afterSpace.dropWhile (fun b => b != 0) with
      | [] => []
      | _ :: afterNull =>
        if (afterNull.take 20).length < 20 then []
        else
          (bytesStr mode, bytesStr name, bytesToHex (afterNull.take 20)) ::
            parseTreeEntries fuel (afterNull.drop 20)

mutual

/-- `checkoutTree(treeSha, currentPath)` (clone.js lines 667–718): read the
tree object (absent tree: log and return; read failure: throw; wrong kind:
throw) and process the parsed entries.  `fuel` bounds the recursion depth
(the JS call stack; exhaustion is the `RangeError` the checkout `catch`
in `cloneCommand` swallows). -/
def checkoutTree : Nat → String → String → World →
    World × List CloneEvent × Except CheckoutErr Unit
  | 0, _, _, w => (w, [], .error .outOfFuel)
  | fuel + 1, treeSha, currentPath, w =>
    match readObject treeSha w.store with
    | .notFound => (w, [], .ok ())
    | .err => (w, [], .error .readFailed)
    | .ok t content =>
      if t = "tree" then
        checkoutEntries fuel (parseTreeEntries content.length content) currentPath w
      else (w, [], .error .notTree)

/-- The entry loop of `checkoutTree` (lines 680–717), one step per parsed
entry: mode `40000` creates the directory if needed and recurses; any other
mode reads the entry object and, when it is a blob, writes the file and
sets its mode (`0o755` for `100755`, `0o644` otherwise), skipping
otherwise.  A throw from a nested call propagates. -/
def checkoutEntries : Nat → List (String × String × String) → String → World →
    World × List CloneEvent × Except CheckoutErr Unit
  | _, [], _, w => (w, [], .ok ())
  | 0, _ :: _, _, w => (w, [], .error .outOfFuel)
  | fuel + 1, (mode, name, entrySha) :: rest, currentPath, w =>
    let entryPath := pathJoin currentPath name
    if mode = "40000" then
      let key := resolvePath w.cwd entryPath
      let w1 := if w.fsExists key then w else w.mkdir key
      let evs1 : List CloneEvent := if w.fsExists key then [] else [.mkdir entryPath]
      match checkoutTree fuel entrySha entryPath w1 with
      | (w2, evs2, .error e) => (w2, evs1 ++ evs2, .error e)
      | (w2, evs2, .ok _) =>
        match checkoutEntries fuel rest currentPath w2 with
        | (w3, evs3, r) => (w3, evs1 ++ evs2 ++ evs3, r)
    else
      match readObject entrySha w.store with
      | .err => (w, [], .error .readFailed)
      | .notFound => checkoutEntries fuel rest currentPath w
      | .ok bt bcontent =>
        if bt = "blob" then
          let evs1 : List CloneEvent :=
            [.writeFile entryPath bcontent,
             .chmod entryPath (if mode = "100755" then 493 else 420)]
          match checkoutEntries fuel rest currentPath w with
          | (w3, evs3, r) => (w3, evs1 ++ evs3, r)
        else checkoutEntries fuel rest currentPath w

end

/-- `checkout(commitSha, targetDirectory)` (clone.js lines 643–665): read
the commit (absent or wrong kind: throw), extract the tree id, create the
target directory if needed, and walk the tree. -/
def checkout (fuel : Nat) (commitSha targetDirectory : String) (w : World) :
    World × List CloneEvent × Except CheckoutErr Unit :=
  match readObject commitSha w.store with
  | .notFound => (w, [], .error .commitMissing)
  | .err => (w, [], .error .readFailed)
  | .ok t content =>
    if t = "commit" then
      match findTreeSha content with
      | none => (w, [], .error .noTreeSha)
      | some treeSha =>
        let key := resolvePath w.cwd targetDirectory
        let w1 := if w.fsExists key then w else w.mkdir key
        let evs1 : List CloneEvent :=
          if w.fsExists key then [] else [.mkdir targetDirectory]
        match checkoutTree fuel treeSha targetDirectory w1 with
        | (w2, evs2, r) => (w2, evs1 ++ evs2, r)
    else (w, [], .error .notCommit)

/-- The outcome of a clone run: final world, the effect trace, and the
overall result (a rethrown error or success). -/
structure CloneOutcome where
  world : World
  events : List CloneEvent
  res : Except CloneErr Unit

/-- The body of the `try` block (clone.js lines 377–418), entered with the
cwd already moved into the target directory: `initCommand`, the packfile
request (the POST summarized by the `packReq` oracle), `processPackfile`,
the ref/HEAD writes, and the checkout attempt whose failure is only
logged (lines 410–416).  An `.error` here is the rethrow of line 421. -/
def cloneBody (packReq : Except Unit (List Nat)) (inflate : List Nat → InflateRes)
    (checkoutFuel : Nat) (defaultBranchRef : Option String) (headSha : String)
    (w : World) : World × List CloneEvent × Except CloneErr Unit :=
  let (w1, evs1) := initCommand w
  match packReq with
  | .error _ => (w1, evs1 ++ [.netPost], .error .packRequestFailed)
  | .ok packfileData =>
    match processPackfile packfileData inflate w1.store with
    | .error _ => (w1, evs1 ++ [.netPost], .error .packTooShort)
    | .ok pr =>
      let w2 : World := { w1 with store := pr.store }
      let gitDir := pathJoin w2.cwd ".git"
      let (w3, evs3) :=
        match defaultBranchRef with
        | some br =>
          if br = "" then
            (w2, [CloneEvent.writeTextFile (pathJoin gitDir "HEAD") (headSha ++ "\n")])
          else
            let refPath := pathJoin gitDir br
            let refDir := dirnameOf refPath
            let (wa, evsa) :=
              if w2.fsExists refDir then (w2, ([] : List CloneEvent))
              else (w2.mkdir refDir, [CloneEvent.mkdir refDir])
            (wa, evsa ++
              [CloneEvent.writeTextFile refPath (headSha ++ "\n"),
               CloneEvent.writeTextFile (pathJoin gitDir "HEAD") ("ref: " ++ br ++ "\n")])
        | none =>
          (w2, [CloneEvent.writeTextFile (pathJoin gitDir "HEAD") (headSha ++ "\n")])
      match checkout checkoutFuel headSha "." w3 with
      | (w4, evs4, _) => (w4, evs1 ++ [.netPost] ++ evs3 ++ evs4, .ok ())

/-- `cloneCommand(repoUrl, targetDir)` (clone.js lines 342–425).  The two
network transports are summarized by oracles: `refsReq` is the outcome of
`discoverRefs` (the GET plus pkt-line ref parsing; its value is the final
JS ref object as an association list) and `packReq` the outcome of
`requestPackfile` (the POST plus side-band extraction).  `new URL` is
summarized by `args.urlValid` and `args.urlPathname`.  Everything from the
target-directory check on — HEAD resolution with the detached-HEAD
`substring(5)` applied to whatever `refs["HEAD"]` holds, `mkdir`/`chdir`
into the target, the `try`/`catch` rethrow, and the `finally` that always
restores the original cwd — follows the source. -/
def cloneCommand (args : CloneArgs) (refsReq : Except Unit (List (String × String)))
    (packReq : Except Unit (List Nat)) (inflate : List Nat → InflateRes)
    (checkoutFuel : Nat) (w : World) : CloneOutcome :=
  if args.urlValid = false then ⟨w, [], .error .invalidUrl⟩
  else
    let targetDir := resolvedTargetDir args
    if w.fsExists (resolvePath w.cwd targetDir) then ⟨w, [], .error .targetExists⟩
    else
      match refsReq with
      | .error _ => ⟨w, [.netGet], .error .discoverFailed⟩
      | .ok refs =>
        let headRefTarget := lookupRef refs "HEAD"
        let headOk : Bool :=
          match headRefTarget with
          | some s => strStartsWith s "ref: " || isHex40 s
          | none => false
        if headOk = false then ⟨w, [.netGet], .error .noHead⟩
        else
          let defaultBranchRef : Option String :=
            match headRefTarget with
            | some s => if s = "" then none else some (strTrim (strDrop s 5))
            | none => none
          let headShaOpt : Option String :=
            match defaultBranchRef with
            | some br => if br = "" then lookupRef refs "HEAD" else lookupRef refs br
            | none => lookupRef refs "HEAD"
          match headShaOpt with
          | none => ⟨w, [.netGet], .error .noShaForBranch⟩
          | some headSha =>
            if isHex40 headSha = false then ⟨w, [.netGet], .error .noShaForBranch⟩
            else
              let originalCwd := w.cwd
              let w1 := (w.mkdir (resolvePath w.cwd targetDir))
              let w2 : World := { w1 with cwd := resolvePath w1.cwd targetDir }
              match cloneBody packReq inflate checkoutFuel defaultBranchRef headSha w2 with
              | (w3, evs, r) =>
                ⟨{ w3 with cwd := originalCwd },
                  [.netGet, .mkdir targetDir, .chdir targetDir] ++
                    (evs ++ [.chdir originalCwd]), r⟩

/-- C9: when the resolved target directory already exists (for a valid
URL, so resolution succeeds), `cloneCommand` fails with the
precondition error before performing anything: the world is unchanged and
the effect trace is empty — no directory creation, no repository
initialization, no network fetch, no object write. -/
theorem cloneCommand_targetExists (args : CloneArgs)
    (refsReq : Except Unit (List (String × String))) (packReq : Except Unit (List Nat))
    (inflate : List Nat → InflateRes) (fuel : Nat) (w : World)
    (hurl : args.urlValid = true)
    (hex : w.fsExists (resolvePath w.cwd (resolvedTargetDir args)) = true) :
    cloneCommand args refsReq packReq inflate fuel w = ⟨w, [], .error .targetExists⟩ := by
  rw [cloneCommand]
  rw [if_neg (by simp [hurl])]
  rw [if_pos hex]

/-- Witness for C9: an existing target directory `dir` under `/cwd`. -/
theorem cloneCommand_targetExists_witness :
    (⟨true, "/repo.git", some "dir"⟩ : CloneArgs).urlValid = true ∧
    (⟨fun _ => true, "/cwd", fun _ => none⟩ : World).fsExists
      (resolvePath "/cwd" (resolvedTargetDir ⟨true, "/repo.git", some "dir"⟩)) = true ∧
    cloneCommand ⟨true, "/repo.git", some "dir"⟩ (.ok []) (.ok []) (fun _ => .err 0) 0
      ⟨fun _ => true, "/cwd", fun _ => none⟩ =
      ⟨⟨fun _ => true, "/cwd", fun _ => none⟩, [], .error .targetExists⟩ :=
  ⟨rfl, rfl, cloneCommand_targetExists _ _ _ _ _ _ rfl rfl⟩

/-- C10: `cloneCommand` does its work inside the target directory and
always restores the original working directory before returning: on every
path — the early failures, a body error rethrown through the
`try`/`catch`, and success — the final world's cwd equals the initial one;
and on any run that entered the body (in particular every successful one)
the trace records the `chdir` into the resolved target directory and ends
with the `chdir` back to the original cwd. -/
theorem cloneCommand_cwd_restored (args : CloneArgs)
    (refsReq : Except Unit (List (String × String))) (packReq : Except Unit (List Nat))
    (inflate : List Nat → InflateRes) (fuel : Nat) (w : World) :
    (cloneCommand args refsReq packReq inflate fuel w).world.cwd = w.cwd ∧
    ((cloneCommand args refsReq packReq inflate fuel w).res = .ok () →
      CloneEvent.chdir (resolvedTargetDir args) ∈
        (cloneCommand args refsReq packReq inflate fuel w).events ∧
      (cloneCommand args refsReq packReq inflate fuel w).events.getLast? =
        some (.chdir w.cwd)) := by
  rcases hC : cloneCommand args refsReq packReq inflate fuel w with ⟨wo, evs, r⟩
  rw [cloneCommand] at hC
  by_cases hurl : args.urlValid = false
  · rw [if_pos hurl] at hC
    injection hC with h1 h2 h3
    subst h1; subst h2; subst h3
    exact ⟨rfl, fun h => by simp at h⟩
  · rw [if_neg hurl] at hC
    simp only [] at hC
    by_cases hex : w.fsExists (resolvePath w.cwd (resolvedTargetDir args)) = true
    · rw [if_pos hex] at hC
      injection hC with h1 h2 h3
      subst h1; subst h2; subst h3
      exact ⟨rfl, fun h => by simp at h⟩
    · rw [if_neg hex] at hC
      rcases refsReq with e | refs
      · simp only [] at hC
        injection hC with h1 h2 h3
        subst h1; subst h2; subst h3
        exact ⟨rfl, fun h => by simp at h⟩
      · simp only [] at hC
        by_cases hok : (match lookupRef refs "HEAD" with
          | some s => strStartsWith s "ref: " || isHex40 s
          | none => false) = false
        · rw [if_pos hok] at hC
          injection hC with h1 h2 h3
          subst h1; subst h2; subst h3
          exact ⟨rfl, fun h => by simp at h⟩
        · rw [if_neg hok] at hC
          rcases hsha : (match (match lookupRef refs "HEAD" with
              | some s => if s = "" then none else some (strTrim (strDrop s 5))
              | none => none) with
            | some br => if br = "" then lookupRef refs "HEAD" else lookupRef refs br
            | none => lookupRef refs "HEAD") with _ | headSha
          · rw [hsha] at hC
            injection hC with h1 h2 h3
            subst h1; subst h2; subst h3
            exact ⟨rfl, fun h => by simp at h⟩
          · rw [hsha] at hC
            simp only [] at hC
            by_cases hh40 : isHex40 headSha = false
            · rw [if_pos hh40] at hC
              injection hC with h1 h2 h3
              subst h1; subst h2; subst h3
              exact ⟨rfl, fun h => by simp at h⟩
            · rw [if_neg hh40] at hC
              rcases hbody : cloneBody packReq inflate fuel
                  (match lookupRef refs "HEAD" with
                    | some s => if s = "" then none else some (strTrim (strDrop s 5))
                    | none => none) headSha
                  { (w.mkdir (resolvePath w.cwd (resolvedTargetDir args))) with
                    cwd := resolvePath
                      (w.mkdir (resolvePath w.cwd (resolvedTargetDir args))).cwd
                      (resolvedTargetDir args) } with ⟨w3, evs3, r3⟩
              rw [hbody] at hC
              simp only [] at hC
              injection hC with h1 h2 h3
              subst h1; subst h2; subst h3
              refine ⟨rfl, fun _ => ⟨by simp, ?_⟩⟩
              rw [← List.append_assoc]
              exact List.getLast?_concat _

/-- Witness for C10: a concrete successful clone — valid URL, fresh target
`t` under `/c`, refs advertising `HEAD -> refs/heads/main` with a valid
id, an empty (0-object) packfile, and a checkout whose missing commit is
swallowed — restores cwd `/c` and records the `chdir` into `t` with the
restoring `chdir` last. -/
theorem cloneCommand_cwd_restored_witness :
    (cloneCommand ⟨true, "/repo.git", some "t"⟩
      (.ok [("HEAD", "ref: refs/heads/main"),
            ("refs/heads/main", "0123456789012345678901234567890123456789")])
      (.ok ([80, 65, 67, 75, 0, 0, 0, 2, 0, 0, 0, 0] ++ List.replicate 20 0))
      (fun _ => .err 0) 1 ⟨fun _ => false, "/c", fun _ => none⟩).res = .ok () ∧
    ((cloneCommand ⟨true, "/repo.git", some "t"⟩
      (.ok [("HEAD", "ref: refs/heads/main"),
            ("refs/heads/main", "0123456789012345678901234567890123456789")])
      (.ok ([80, 65, 67, 75, 0, 0, 0, 2, 0, 0, 0, 0] ++ List.replicate 20 0))
      (fun _ => .err 0) 1 ⟨fun _ => false, "/c", fun _ => none⟩).world.cwd = "/c" ∧
     (CloneEvent.chdir (resolvedTargetDir ⟨true, "/repo.git", some "t"⟩) ∈
        (cloneCommand ⟨true, "/repo.git", some "t"⟩
          (.ok [("HEAD", "ref: refs/heads/main"),
                ("refs/heads/main", "0123456789012345678901234567890123456789")])
          (.ok ([80, 65, 67, 75, 0, 0, 0, 2, 0, 0, 0, 0] ++ List.replicate 20 0))
          (fun _ => .err 0) 1 ⟨fun _ => false, "/c", fun _ => none⟩).events ∧
      (cloneCommand ⟨true, "/repo.git", some "t"⟩
        (.ok [("HEAD", "ref: refs/heads/main"),
              ("refs/heads/main", "0123456789012345678901234567890123456789")])
        (.ok ([80, 65, 67, 75, 0, 0, 0, 2, 0, 0, 0, 0] ++ List.replicate 20 0))
        (fun _ => .err 0) 1 ⟨fun _ => false, "/c", fun _ => none⟩).events.getLast? =
        some (.chdir "/c"))) :=
  ⟨by decide,
   (cloneCommand_cwd_restored ⟨true, "/repo.git", some "t"⟩
      (.ok [("HEAD", "ref: refs/heads/main"),
            ("refs/heads/main", "0123456789012345678901234567890123456789")])
      (.ok ([80, 65, 67, 75, 0, 0, 0, 2, 0, 0, 0, 0] ++ List.replicate 20 0))
      (fun _ => .err 0) 1 ⟨fun _ => false, "/c", fun _ => none⟩).1,
   (cloneCommand_cwd_restored ⟨true, "/repo.git", some "t"⟩
      (.ok [("HEAD", "ref: refs/heads/main"),
            ("refs/heads/main", "0123456789012345678901234567890123456789")])
      (.ok ([80, 65, 67, 75, 0, 0, 0, 2, 0, 0, 0, 0] ++ List.replicate 20 0))
      (fun _ => .err 0) 1 ⟨fun _ => false, "/c", fun _ => none⟩).2 (by decide)⟩
